import Mathlib

/-!
# 8085 binary-search simulator: the state machine of `src/App.js`

A shallow embedding of the simulation core of the React component `App`:
`getInitialState`, the formatter `hex`, and the two event handlers
`handleInitialize` and `handleStep`, each read as the pure function
"state before the click ↦ state after the click".  A handler that queues
several functional `setState` updates is the composition of those updates,
applied in order to the state the handler was called with.

JavaScript numbers are modelled by mathematical integers (`Int`).  Every
number the handlers compute is an integer, and the model agrees with IEEE
doubles on the safe-integer range, which contains every array index.
The one number that comes from outside, the key read by `parseInt`, is
rounded to the nearest double (`toDouble`), as the conversion at the end of
`parseInt` does; a key text of magnitude `2 ^ 1024` or more, which
JavaScript reads as `Infinity`, has no counterpart in `Int` and is outside
the model.
`null` is `none`; where the source uses a possibly-`null` field as a number
(`<`, `+`) the coercion `ToNumber(null) = 0` is explicit (`toNum`).
-/

namespace BinarySearch8085

/-! ## Constants and the state -/

/-- The constant `INITIAL_ARRAY`. -/
def INITIAL_ARRAY : List Int := [0x10, 0x20, 0x35, 0x42, 0x58, 0x66, 0x73, 0x89, 0x91, 0xA4]

/-- The constant `INITIAL_KEY_INPUT`. -/
def INITIAL_KEY_INPUT : String := "0x66"

/-- The constant `ARRAY_ADDR`. -/
def ARRAY_ADDR : Int := 0x3000

/-- The object `registers: { A, B, C, D, E }`. -/
structure Registers where
  A : Int
  B : Int
  C : Int
  D : Int
  E : Int
deriving DecidableEq, Repr

/-- The state object held by `useState`.  `low`, `high`, `mid` and
`foundIndex` are `null` (`none`) or a number. -/
structure State where
  array : List Int
  keyInput : String
  keyToSearch : Int
  registers : Registers
  hl : Int
  low : Option Int
  high : Option Int
  mid : Option Int
  foundIndex : Option Int
  log : List String
  isInitialized : Bool
  isFinished : Bool
deriving DecidableEq, Repr

/-! ## JavaScript primitives used by the handlers -/

/-- The digits of `Number.prototype.toString(radix)` on an integer: a minus
sign for a negative number, then the lower-case digits of the magnitude. -/
def toStringRadix (num : Int) (radix : Nat) : List Char :=
  if num < 0 then '-' :: Nat.toDigits radix num.natAbs else Nat.toDigits radix num.toNat

/-- The method `String.prototype.padStart(padding, c)` for a one-character filler. -/
def padStart (s : List Char) (padding : Nat) (c : Char) : List Char :=
  List.replicate (padding - s.length) c ++ s

/-- The helper `hex`:
``0x${num.toString(16).toUpperCase().padStart(padding, '0')}``. -/
def hex (num : Int) (padding : Nat := 2) : String :=
  "0x" ++ String.mk (padStart ((toStringRadix num 16).map Char.toUpper) padding '0')

/-- A number interpolated in a template literal: its decimal digits. -/
def numToString (num : Int) : String :=
  String.mk (toStringRadix num 10)

/-- A possibly-`null` number interpolated in a template literal. -/
def optToString : Option Int → String
  | none => "null"
  | some n => numToString n

/-- The coercion `ToNumber` on a possibly-`null` number: `null` is `0`. -/
def toNum : Option Int → Int
  | none => 0
  | some n => n

/-- The characters `parseInt` skips at the start of its input
(ECMAScript `WhiteSpace` and `LineTerminator`). -/
def isStrWhiteSpaceChar (c : Char) : Bool :=
  let n := c.toNat
  n = 0x09 || n = 0x0A || n = 0x0B || n = 0x0C || n = 0x0D || n = 0x20 || n = 0xA0 ||
  n = 0x1680 || (0x2000 ≤ n && n ≤ 0x200A) || n = 0x2028 || n = 0x2029 || n = 0x202F ||
  n = 0x205F || n = 0x3000 || n = 0xFEFF

/-- The value of a character as a digit in the given radix (at most 36), if it is one. -/
def digitValue (radix : Nat) (c : Char) : Option Nat :=
  let n := c.toNat
  let v : Option Nat :=
    if 48 ≤ n ∧ n ≤ 57 then some (n - 48)
    else if 97 ≤ n ∧ n ≤ 122 then some (n - 97 + 10)
    else if 65 ≤ n ∧ n ≤ 90 then some (n - 65 + 10)
    else none
  match v with
  | some d => if d < radix then some d else none
  | none => none

/-- The longest run of radix digits at the start of the text, as digit values. -/
def takeDigits (radix : Nat) : List Char → List Nat
  | [] => []
  | c :: cs =>
    match digitValue radix c with
    | some d => d :: takeDigits radix cs
    | none => []

/-- The integer denoted by a list of digit values, most significant first. -/
def digitsToNat (radix : Nat) (ds : List Nat) : Nat :=
  ds.foldl (fun acc d => acc * radix + d) 0

/-- The characters left once leading white space is removed. -/
def trimStart : List Char → List Char
  | [] => []
  | c :: cs => if isStrWhiteSpaceChar c then trimStart cs else c :: cs

/-- The number of low bits a natural number has beyond 53: the least `e` with
`n / 2 ^ e < 2 ^ 53` (the first argument bounds the search). -/
def excessBits : Nat → Nat → Nat
  | 0, _ => 0
  | fuel + 1, n => if n < 2 ^ 53 then 0 else 1 + excessBits fuel (n / 2)

/-- The double nearest to a natural number: the number itself below `2 ^ 53`,
otherwise its 53 leading bits rounded to nearest, ties to even.  (Overflow to
`Infinity`, from `2 ^ 1024` on, is not represented.) -/
def toDouble (n : Nat) : Nat :=
  if n < 2 ^ 53 then n
  else
    let e := excessBits n n
    let q := n / 2 ^ e
    let r := n % 2 ^ e
    let half := 2 ^ (e - 1)
    if r < half then q * 2 ^ e
    else if r = half ∧ q % 2 = 0 then q * 2 ^ e
    else (q + 1) * 2 ^ e

/-- The function `parseInt(string, radix)` for `radix` 10 or 16; `none` is `NaN`.
Leading white space is skipped, one sign is read, with radix 16 one `0x` or
`0X` is skipped, and the longest run of digits that follows is the value,
converted to a double; no digit at all is `NaN`. -/
def parseInt (string : String) (radix : Nat) : Option Int :=
  let s := trimStart string.data
  let sign : Int := match s with
    | '-' :: _ => -1
    | _ => 1
  let s := match s with
    | '+' :: rest => rest
    | '-' :: rest => rest
    | _ => s
  let s := match radix, s with
    | 16, '0' :: 'x' :: rest => rest
    | 16, '0' :: 'X' :: rest => rest
    | _, _ => s
  match takeDigits radix s with
  | [] => none
  | ds => some (sign * (toDouble (digitsToNat radix ds) : Int))

/-- The test `keyInput.toLowerCase().startsWith('0x')`. -/
def startsWith0x (keyInput : String) : Bool :=
  match keyInput.data.map Char.toLower with
  | '0' :: 'x' :: _ => true
  | _ => false

/-- The indexing `array[i]`; `none` is `undefined` (index outside the array). -/
def arrayGet (array : List Int) (i : Int) : Option Int :=
  if 0 ≤ i then array.get? i.toNat else none

/-! ## The handlers -/

/-- The function `getInitialState`. -/
def getInitialState : State :=
  { array := INITIAL_ARRAY
    keyInput := INITIAL_KEY_INPUT
    keyToSearch := (parseInt INITIAL_KEY_INPUT 16).getD 0
    registers := { A := 0, B := 0, C := 0, D := 0, E := 0 }
    hl := 0
    low := none
    high := none
    mid := none
    foundIndex := none
    log := ["Simulation ready. Enter a key and press \"Initialize\"."]
    isInitialized := false
    isFinished := false }

/-- The handler `handleKeyInputChange`, with the text of the input field. -/
def handleKeyInputChange (value : String) : State :=
  { getInitialState with keyInput := value }

/-- The handler `handleReset`. -/
def handleReset : State := getInitialState

/-- The key read by `handleInitialize`:
`parseInt(keyInput, keyInput.toLowerCase().startsWith('0x') ? 16 : 10) || 0`. -/
def parseKey (keyInput : String) : Int :=
  (parseInt keyInput (if startsWith0x keyInput then 16 else 10)).getD 0

/-- The handler `handleInitialize`. -/
def handleInitialize (state : State) : State :=
  let highIndex : Int := (state.array.length : Int) - 1
  let key := parseKey state.keyInput
  { state with
    keyToSearch := key
    hl := ARRAY_ADDR
    registers := { A := 0, B := 0, C := highIndex, D := 0, E := key }
    low := some 0
    high := some highIndex
    mid := none
    foundIndex := none
    isInitialized := true
    isFinished := false
    log := [
      "--- Simulation Initialized ---",
      "LXI H, " ++ hex ARRAY_ADDR 4 ++ "   ; HL (base addr) = " ++ hex ARRAY_ADDR 4,
      "MVI E, " ++ hex key ++ "      ; E (key) = " ++ hex key,
      "MVI B, 00H        ; B (low) = 0",
      "MVI C, " ++ hex highIndex ++ "H        ; C (high) = " ++ numToString highIndex
    ] }

/-- The handler `handleStep`.  `none` is the `TypeError` thrown by
`hex(arrayValue)` when `array[mid]` is `undefined`. -/
def handleStep (state : State) : Option State :=
  if state.isFinished || !state.isInitialized then some state
  else if toNum state.low > toNum state.high then
    some { state with
      log := state.log ++ [
        "LOOP CHECK: low (" ++ optToString state.low ++ ") > high (" ++
          optToString state.high ++ "). Key not found.",
        "NOT_FOUND: MVI A, FFH" ]
      registers := { state.registers with A := 0xFF }
      foundIndex := some (-1)
      isFinished := true }
  else
    let mid : Int := Int.fdiv (toNum state.low + toNum state.high) 2
    match arrayGet state.array mid with
    | none => none
    | some arrayValue =>
      let addressOfMid : Int := ARRAY_ADDR + mid
      let log := state.log ++ [
        "--- New Loop Iteration ---",
        "CALC MID: (low:" ++ optToString state.low ++ " + high:" ++ optToString state.high ++
          ") / 2 = " ++ numToString mid,
        "MOV D, " ++ hex mid ++ "          ; D (mid) = " ++ hex mid,
        "GET M: HL = " ++ hex ARRAY_ADDR 4 ++ " + " ++ numToString mid ++ " = " ++
          hex addressOfMid 4,
        "MOV A, M          ; A = ARRAY[mid] = " ++ hex arrayValue,
        "CMP E             ; Compare A (" ++ hex arrayValue ++ ") with E (" ++
          hex state.keyToSearch ++ ")" ]
      if arrayValue = state.keyToSearch then
        some { state with
          log := log ++ [
            "JZ FOUND          ; Values are equal. Key found at index " ++ numToString mid ++ "." ]
          registers := { state.registers with A := mid, D := mid }
          hl := addressOfMid
          mid := some mid
          foundIndex := some mid
          isFinished := true }
      else if arrayValue < state.keyToSearch then
        let newLow : Int := mid + 1
        some { state with
          log := log ++ [
            "JC IS_SMALLER     ; " ++ hex arrayValue ++ " < " ++ hex state.keyToSearch ++
              ". Search upper half.",
            "INR B             ; new low = mid + 1 = " ++ numToString newLow ]
          registers := { state.registers with A := arrayValue, D := mid, B := newLow }
          hl := addressOfMid
          mid := some mid
          low := some newLow }
      else
        let newHigh : Int := mid - 1
        some { state with
          log := log ++ [
            "IS_LARGER         ; " ++ hex arrayValue ++ " > " ++ hex state.keyToSearch ++
              ". Search lower half.",
            "DCR C             ; new high = mid - 1 = " ++ numToString newHigh ]
          registers := { state.registers with A := arrayValue, D := mid, C := newHigh }
          hl := addressOfMid
          mid := some mid
          high := some newHigh }

/-- The index probed by `handleStep`: `Math.floor((state.low + state.high) / 2)`. -/
def probeIndex (state : State) : Int :=
  Int.fdiv (toNum state.low + toNum state.high) 2

/-- The state after `n` clicks on "Next Step"; `none` once a click has thrown. -/
def stepN : Nat → State → Option State
  | 0, s => some s
  | n + 1, s => (stepN n s).bind handleStep

/-- The state after a click on "Initialize / Setup" with the given key text and array. -/
def initState (keyInput : String) (array : List Int) : State :=
  handleInitialize { getInitialState with keyInput := keyInput, array := array }

/-! ## Predicates used in the statements -/

/-- The invariant of a run on array `a` with key `k`: the array and the key are
those of the run, the state is initialized, `low` and `high` are numbers with
`0 ≤ low`, `high < a.length` and `low ≤ high + 1`, and `foundIndex` is `null`
while the run is not finished. -/
structure Inv (a : List Int) (k : Int) (s : State) : Prop where
  array_eq : s.array = a
  key_eq : s.keyToSearch = k
  init : s.isInitialized = true
  low_some : s.low = some (toNum s.low)
  high_some : s.high = some (toNum s.high)
  low_nonneg : 0 ≤ toNum s.low
  high_lt : toNum s.high < a.length
  low_le : toNum s.low ≤ toNum s.high + 1
  not_found : s.isFinished = false → s.foundIndex = none

/-- The number of indices in the interval `[low, high]`. -/
def size (s : State) : Nat :=
  (toNum s.high + 1 - toNum s.low).toNat

/-- A state of a run: produced by `handleInitialize` on `s0`, or by any number of
steps after it. -/
def Reachable (s0 s : State) : Prop :=
  ∃ n, stepN n (handleInitialize s0) = some s

/-- The new log is a strict extension of the old one: the old log is a
prefix of the new log and the two differ. -/
def StrictExtension (old new : List String) : Prop :=
  old <+: new ∧ old ≠ new

/-- The array is sorted ascending. -/
def SortedAsc (a : List Int) : Prop :=
  List.Sorted (· ≤ ·) a

instance (a : List Int) : Decidable (SortedAsc a) := by
  unfold SortedAsc List.Sorted; infer_instance

/-! ## Reading and writing digits, as the specification words them -/

/-- The hexadecimal digit characters, either case. -/
def hexDigitChars : List Char := "0123456789abcdefABCDEF".data

/-- The decimal digit characters. -/
def decDigitChars : List Char := "0123456789".data

/-- The upper-case hexadecimal digit characters, in order of value. -/
def upperHexChars : List Char := "0123456789ABCDEF".data

/-- The value of a digit character: its place in `0123456789abcdef`, whatever
its case. -/
def charValue (c : Char) : Nat :=
  "0123456789abcdef".data.indexOf c.toLower

/-- The value in the given base of a text made of digit characters, most
significant first. -/
def textValue (base : Nat) (ds : List Char) : Nat :=
  Nat.ofDigits base (ds.reverse.map charValue)

/-- The text starts with one of the given characters. -/
def startsWithOneOf (allowed : List Char) : List Char → Bool
  | [] => false
  | c :: _ => decide (c ∈ allowed)

/-- The text without one leading `+` or `-`. -/
def dropSign : List Char → List Char
  | '+' :: rest => rest
  | '-' :: rest => rest
  | s => s

/-- The sign a text carries: `-1` when it starts with `-`, otherwise `1`. -/
def signOf : List Char → Int
  | '-' :: _ => -1
  | _ => 1

/-- The numeric part of a key text starts with a digit of the selected base:
for a text with the prefix `0x` or `0X`, the text right after the prefix starts
with a hexadecimal digit; for any other text, the text after leading white
space and one optional sign starts with a decimal digit. -/
def numericPartStartsWithDigit : List Char → Bool
  | '0' :: 'x' :: rest => startsWithOneOf hexDigitChars rest
  | '0' :: 'X' :: rest => startsWithOneOf hexDigitChars rest
  | text => startsWithOneOf decDigitChars (dropSign (trimStart text))

/-- The first text occurs inside the second. -/
def Contains (part line : String) : Prop :=
  part.data <:+: line.data

instance (part line : String) : Decidable (Contains part line) := by
  unfold Contains; infer_instance

/-! ## One step, branch by branch -/

theorem probeIndex_eq (s : State) : probeIndex s = (toNum s.low + toNum s.high) / 2 := by
  unfold probeIndex
  exact Int.fdiv_eq_ediv _ (by norm_num)

theorem handleStep_idle (s : State) (h : s.isFinished = true ∨ s.isInitialized = false) :
    handleStep s = some s := by
  unfold handleStep
  rcases h with h | h <;> simp [h]

theorem handleStep_exhausted (s : State) (hI : s.isInitialized = true) (hF : s.isFinished = false)
    (h : toNum s.high < toNum s.low) :
    ∃ l1 l2 : String, handleStep s = some { s with
      log := s.log ++ [l1, l2]
      registers := { s.registers with A := 0xFF }
      foundIndex := some (-1)
      isFinished := true } := by
  unfold handleStep
  simp only [hI, hF, gt_iff_lt, h]
  exact ⟨_, _, rfl⟩

theorem handleStep_throws (s : State) (hI : s.isInitialized = true) (hF : s.isFinished = false)
    (h : toNum s.low ≤ toNum s.high) (hv : arrayGet s.array (probeIndex s) = none) :
    handleStep s = none := by
  unfold handleStep
  unfold probeIndex at hv
  have h2 : ¬ toNum s.high < toNum s.low := not_lt.mpr h
  simp [hI, hF, h2, hv]

theorem handleStep_found (s : State) (hI : s.isInitialized = true) (hF : s.isFinished = false)
    (h : toNum s.low ≤ toNum s.high) (hv : arrayGet s.array (probeIndex s) = some s.keyToSearch) :
    ∃ lines : List String, handleStep s = some { s with
      log := s.log ++ lines
      registers := { s.registers with A := probeIndex s, D := probeIndex s }
      hl := ARRAY_ADDR + probeIndex s
      mid := some (probeIndex s)
      foundIndex := some (probeIndex s)
      isFinished := true } ∧ lines.length = 7 := by
  unfold handleStep
  unfold probeIndex at hv ⊢
  have h2 : ¬ toNum s.high < toNum s.low := not_lt.mpr h
  simp only [hI, hF, gt_iff_lt, h2, hv]
  simp only [Bool.not_true, Bool.or_self, Bool.false_eq_true, ↓reduceIte, List.append_assoc]
  exact ⟨_, rfl, rfl⟩

theorem handleStep_smaller (s : State) (hI : s.isInitialized = true) (hF : s.isFinished = false)
    (h : toNum s.low ≤ toNum s.high) (v : Int) (hv : arrayGet s.array (probeIndex s) = some v)
    (hlt : v < s.keyToSearch) :
    ∃ lines : List String, handleStep s = some { s with
      log := s.log ++ lines
      registers := { s.registers with A := v, D := probeIndex s, B := probeIndex s + 1 }
      hl := ARRAY_ADDR + probeIndex s
      mid := some (probeIndex s)
      low := some (probeIndex s + 1) } ∧ lines.length = 8 := by
  unfold handleStep
  unfold probeIndex at hv ⊢
  have h2 : ¬ toNum s.high < toNum s.low := not_lt.mpr h
  have h3 : ¬ v = s.keyToSearch := ne_of_lt hlt
  simp only [hI, hF, gt_iff_lt, h2, hv, h3, hlt]
  simp only [Bool.not_true, Bool.or_self, Bool.false_eq_true, ↓reduceIte, List.append_assoc]
  exact ⟨_, rfl, rfl⟩

theorem handleStep_larger (s : State) (hI : s.isInitialized = true) (hF : s.isFinished = false)
    (h : toNum s.low ≤ toNum s.high) (v : Int) (hv : arrayGet s.array (probeIndex s) = some v)
    (hgt : s.keyToSearch < v) :
    ∃ lines : List String, handleStep s = some { s with
      log := s.log ++ lines
      registers := { s.registers with A := v, D := probeIndex s, C := probeIndex s - 1 }
      hl := ARRAY_ADDR + probeIndex s
      mid := some (probeIndex s)
      high := some (probeIndex s - 1) } ∧ lines.length = 8 := by
  unfold handleStep
  unfold probeIndex at hv ⊢
  have h2 : ¬ toNum s.high < toNum s.low := not_lt.mpr h
  have h3 : ¬ v = s.keyToSearch := ne_of_gt hgt
  have h4 : ¬ v < s.keyToSearch := not_lt.mpr (le_of_lt hgt)
  simp only [hI, hF, gt_iff_lt, h2, hv, h3, h4]
  simp only [Bool.not_true, Bool.or_self, Bool.false_eq_true, ↓reduceIte, List.append_assoc]
  exact ⟨_, rfl, rfl⟩

theorem arrayGet_isSome (a : List Int) (i : Int) (h0 : 0 ≤ i) (h1 : i < a.length) :
    ∃ v, arrayGet a i = some v := by
  unfold arrayGet
  have h2 : i.toNat < a.length := by omega
  simp only [h0, ↓reduceIte]
  exact ⟨a.get ⟨i.toNat, h2⟩, List.get?_eq_get h2⟩

theorem probeIndex_bounds (s : State) (h : toNum s.low ≤ toNum s.high) :
    toNum s.low ≤ probeIndex s ∧ probeIndex s ≤ toNum s.high := by
  rw [probeIndex_eq]
  constructor <;> omega

/-! ## The invariant of a run -/

theorem handleInitialize_inv (s0 : State) :
    Inv s0.array (parseKey s0.keyInput) (handleInitialize s0) := by
  constructor <;> simp [handleInitialize, toNum]

theorem Inv.step {a : List Int} {k : Int} {s : State} (h : Inv a k s)
    (hF : s.isFinished = false) :
    ∃ s', handleStep s = some s' ∧ Inv a k s' ∧
      ((toNum s.high < toNum s.low ∧ s'.isFinished = true ∧ s'.foundIndex = some (-1) ∧
          s'.registers.A = 0xFF ∧ s'.low = s.low ∧ s'.high = s.high) ∨
       (toNum s.low ≤ toNum s.high ∧ arrayGet a (probeIndex s) = some k ∧
          s'.isFinished = true ∧ s'.foundIndex = some (probeIndex s) ∧
          s'.low = s.low ∧ s'.high = s.high) ∨
       (toNum s.low ≤ toNum s.high ∧ (∃ v, arrayGet a (probeIndex s) = some v ∧ v < k) ∧
          s'.isFinished = false ∧ s'.low = some (probeIndex s + 1) ∧ s'.high = s.high) ∨
       (toNum s.low ≤ toNum s.high ∧ (∃ v, arrayGet a (probeIndex s) = some v ∧ k < v) ∧
          s'.isFinished = false ∧ s'.low = s.low ∧ s'.high = some (probeIndex s - 1))) := by
  obtain ⟨ha, hk, hI, hl, hh, h0, h1, h2, h3⟩ := h
  rcases lt_or_le (toNum s.high) (toNum s.low) with hlt | hle
  · obtain ⟨l1, l2, hs⟩ := handleStep_exhausted s hI hF hlt
    refine ⟨_, hs, ⟨ha, hk, hI, hl, hh, h0, h1, h2, ?_⟩, Or.inl ⟨hlt, rfl, rfl, rfl, rfl, rfl⟩⟩
    intro hc; simp at hc
  · obtain ⟨hb1, hb2⟩ := probeIndex_bounds s hle
    obtain ⟨v, hv⟩ := arrayGet_isSome a (probeIndex s) (by omega) (by omega)
    rcases lt_trichotomy v k with hvk | hvk | hvk
    · obtain ⟨lines, hs, _⟩ := handleStep_smaller s hI hF hle v (ha ▸ hv) (hk ▸ hvk)
      refine ⟨_, hs, ⟨ha, hk, hI, ?_, hh, ?_, h1, ?_, ?_⟩,
        Or.inr (Or.inr (Or.inl ⟨hle, ⟨v, hv, hvk⟩, hF, rfl, rfl⟩))⟩
      · rfl
      · show 0 ≤ probeIndex s + 1; omega
      · show probeIndex s + 1 ≤ toNum s.high + 1; omega
      · intro _; exact h3 hF
    · subst hvk
      obtain ⟨lines, hs, _⟩ := handleStep_found s hI hF hle (by rw [ha, hk]; exact hv)
      refine ⟨_, hs, ⟨ha, hk, hI, hl, hh, h0, h1, h2, ?_⟩,
        Or.inr (Or.inl ⟨hle, hv, rfl, rfl, rfl, rfl⟩)⟩
      intro hc; simp at hc
    · obtain ⟨lines, hs, _⟩ := handleStep_larger s hI hF hle v (ha ▸ hv) (hk ▸ hvk)
      refine ⟨_, hs, ⟨ha, hk, hI, hl, ?_, h0, ?_, ?_, ?_⟩,
        Or.inr (Or.inr (Or.inr ⟨hle, ⟨v, hv, hvk⟩, hF, rfl, rfl⟩))⟩
      · rfl
      · show probeIndex s - 1 < a.length; omega
      · show toNum s.low ≤ probeIndex s - 1 + 1; omega
      · intro _; exact h3 hF

/-! ## Runs -/

theorem stepN_succ_left (n : Nat) (s : State) :
    stepN (n + 1) s = (handleStep s).bind (stepN n) := by
  induction n with
  | zero => simp [stepN]
  | succ n ih =>
    show (stepN (n + 1) s).bind handleStep = _
    rw [ih]
    cases handleStep s with
    | none => rfl
    | some t => rfl

theorem stepN_succ_eq_some {n : Nat} {s s' : State} (h : stepN (n + 1) s = some s') :
    ∃ t, stepN n s = some t ∧ handleStep t = some s' := by
  change (stepN n s).bind handleStep = some s' at h
  cases ht : stepN n s with
  | none => rw [ht] at h; cases h
  | some t => rw [ht] at h; exact ⟨t, rfl, h⟩

theorem stepN_of_finished (n : Nat) (s : State) (h : s.isFinished = true) :
    stepN n s = some s := by
  induction n with
  | zero => rfl
  | succ n ih =>
    show (stepN n s).bind handleStep = _
    rw [ih]
    exact handleStep_idle s (Or.inl h)

/-- Induction along a run: a property of the initialized state that every
step from an unfinished state of the run preserves holds after any number
of steps. -/
theorem run_induction (s0 : State) (P : State → Prop) (h0 : P (handleInitialize s0))
    (hstep : ∀ s s', Inv s0.array (parseKey s0.keyInput) s → s.isFinished = false → P s →
      handleStep s = some s' → P s') :
    ∀ n s, stepN n (handleInitialize s0) = some s →
      Inv s0.array (parseKey s0.keyInput) s ∧ P s := by
  intro n
  induction n with
  | zero =>
    intro s hs
    cases hs
    exact ⟨handleInitialize_inv s0, h0⟩
  | succ n ih =>
    intro s hs
    obtain ⟨t, ht, hts⟩ := stepN_succ_eq_some hs
    obtain ⟨hinv, hP⟩ := ih t ht
    cases hF : t.isFinished with
    | true =>
      rw [handleStep_idle t (Or.inl hF)] at hts
      cases hts
      exact ⟨hinv, hP⟩
    | false =>
      obtain ⟨s', hs', hinv', _⟩ := hinv.step hF
      rw [hs'] at hts
      cases hts
      exact ⟨hinv', hstep t s hinv hF hP hs'⟩

theorem run_inv (s0 : State) (n : Nat) (s : State)
    (hs : stepN n (handleInitialize s0) = some s) :
    Inv s0.array (parseKey s0.keyInput) s :=
  (run_induction s0 (fun _ => True) trivial (fun _ _ _ _ _ _ => trivial) n s hs).1

theorem Inv.stepN_isSome {a : List Int} {k : Int} (n : Nat) :
    ∀ {s : State}, Inv a k s → ∃ s', stepN n s = some s' ∧ Inv a k s' := by
  induction n with
  | zero => intro s h; exact ⟨s, rfl, h⟩
  | succ n ih =>
    intro s h
    obtain ⟨t, ht, hinv⟩ := ih h
    cases hF : t.isFinished with
    | true =>
      refine ⟨t, ?_, hinv⟩
      show (stepN n s).bind handleStep = _
      rw [ht]
      exact handleStep_idle t (Or.inl hF)
    | false =>
      obtain ⟨s', hs', hinv', _⟩ := hinv.step hF
      refine ⟨s', ?_, hinv'⟩
      show (stepN n s).bind handleStep = _
      rw [ht]
      exact hs'

theorem size_lt_pow_finishes {a : List Int} {k : Int} (m : Nat) :
    ∀ s : State, Inv a k s → s.isFinished = false → size s < 2 ^ m →
      ∃ n, n ≤ m + 1 ∧ ∃ s', stepN n s = some s' ∧ s'.isFinished = true := by
  induction m with
  | zero =>
    intro s h hF hsz
    obtain ⟨s', hs', _, hc⟩ := h.step hF
    refine ⟨1, le_refl _, s', ?_, ?_⟩
    · rw [stepN_succ_left, hs']; rfl
    · unfold size at hsz
      rcases hc with hc | hc | hc | hc
      · exact hc.2.1
      · exact hc.2.2.1
      · have := hc.1; omega
      · have := hc.1; omega
  | succ m ih =>
    intro s h hF hsz
    obtain ⟨s', hs', hinv', hc⟩ := h.step hF
    have hp := probeIndex_eq s
    rcases hc with hc | hc | hc | hc
    · exact ⟨1, by omega, s', by rw [stepN_succ_left, hs']; rfl, hc.2.1⟩
    · exact ⟨1, by omega, s', by rw [stepN_succ_left, hs']; rfl, hc.2.2.1⟩
    · obtain ⟨hle, _, hF', hlow, hhigh⟩ := hc
      have hsz' : size s' < 2 ^ m := by
        unfold size at hsz ⊢
        rw [hlow, hhigh]
        show (toNum s.high + 1 - (probeIndex s + 1)).toNat < 2 ^ m
        rw [pow_succ] at hsz
        omega
      obtain ⟨n, hn, s'', hs'', hfin⟩ := ih s' hinv' hF' hsz'
      exact ⟨n + 1, by omega, s'', by rw [stepN_succ_left, hs']; exact hs'', hfin⟩
    · obtain ⟨hle, _, hF', hlow, hhigh⟩ := hc
      have hsz' : size s' < 2 ^ m := by
        unfold size at hsz ⊢
        rw [hlow, hhigh]
        show (probeIndex s - 1 + 1 - toNum s.low).toNat < 2 ^ m
        rw [pow_succ] at hsz
        omega
      obtain ⟨n, hn, s'', hs'', hfin⟩ := ih s' hinv' hF' hsz'
      exact ⟨n + 1, by omega, s'', by rw [stepN_succ_left, hs']; exact hs'', hfin⟩

theorem arrayGet_some_bounds {a : List Int} {i v : Int} (h : arrayGet a i = some v) :
    0 ≤ i ∧ i < a.length := by
  unfold arrayGet at h
  split at h
  · rename_i h0
    have := (List.get?_eq_some.mp h).1
    omega
  · cases h

theorem arrayGet_mem {a : List Int} {i v : Int} (h : arrayGet a i = some v) : v ∈ a := by
  unfold arrayGet at h
  split at h
  · exact List.get?_mem h
  · cases h

theorem mem_arrayGet {a : List Int} {v : Int} (h : v ∈ a) :
    ∃ i : Int, 0 ≤ i ∧ i < a.length ∧ arrayGet a i = some v := by
  obtain ⟨n, hn⟩ := List.mem_iff_get?.mp h
  have hlt := (List.get?_eq_some.mp hn).1
  refine ⟨n, by omega, by omega, ?_⟩
  unfold arrayGet
  rw [if_pos (by omega)]
  exact hn

theorem sorted_arrayGet_le {a : List Int} (hs : SortedAsc a) {i j x y : Int}
    (hi : arrayGet a i = some x) (hj : arrayGet a j = some y) (hij : i ≤ j) : x ≤ y := by
  have bi := arrayGet_some_bounds hi
  have bj := arrayGet_some_bounds hj
  unfold arrayGet at hi hj
  rw [if_pos bi.1] at hi
  rw [if_pos bj.1] at hj
  obtain ⟨hi1, hi2⟩ := List.get?_eq_some.mp hi
  obtain ⟨hj1, hj2⟩ := List.get?_eq_some.mp hj
  rw [← hi2, ← hj2]
  exact List.Sorted.rel_get_of_le hs (show (⟨i.toNat, hi1⟩ : Fin a.length) ≤ ⟨j.toNat, hj1⟩ from by
    show i.toNat ≤ j.toNat
    omega)

theorem size_handleInitialize (s0 : State) : size (handleInitialize s0) = s0.array.length := by
  simp [size, handleInitialize, toNum]

theorem run_finishes (s0 : State) :
    ∃ n, n ≤ Nat.clog 2 (s0.array.length + 1) + 1 ∧
      ∃ s, stepN n (handleInitialize s0) = some s ∧ s.isFinished = true := by
  apply size_lt_pow_finishes _ _ (handleInitialize_inv s0) rfl
  rw [size_handleInitialize]
  have := Nat.le_pow_clog (by norm_num : 1 < 2) (s0.array.length + 1)
  omega

/-- On a sorted array that holds the key, the key stays inside `[low, high]`
while the run is unfinished, and a finished state has found it. -/
theorem run_found_inv (s0 : State) (hs : SortedAsc s0.array)
    (hk : parseKey s0.keyInput ∈ s0.array) (n : Nat) (s : State)
    (hr : stepN n (handleInitialize s0) = some s) :
    (s.isFinished = false → ∃ i : Int, toNum s.low ≤ i ∧ i ≤ toNum s.high ∧
        arrayGet s0.array i = some (parseKey s0.keyInput)) ∧
    (s.isFinished = true → ∃ i : Int, s.foundIndex = some i ∧
        arrayGet s0.array i = some (parseKey s0.keyInput)) := by
  refine (run_induction s0 (fun s => (s.isFinished = false → ∃ i : Int, toNum s.low ≤ i ∧
      i ≤ toNum s.high ∧ arrayGet s0.array i = some (parseKey s0.keyInput)) ∧
    (s.isFinished = true → ∃ i : Int, s.foundIndex = some i ∧
      arrayGet s0.array i = some (parseKey s0.keyInput))) ?_ ?_ n s hr).2
  · refine ⟨fun _ => ?_, fun h => by cases h⟩
    obtain ⟨i, h0, h1, h2⟩ := mem_arrayGet hk
    refine ⟨i, h0, ?_, h2⟩
    show i ≤ (s0.array.length : Int) - 1
    omega
  · intro s s' hinv hF hP hstep
    obtain ⟨i, hi1, hi2, hi3⟩ := hP.1 hF
    obtain ⟨t, ht, _, hc⟩ := hinv.step hF
    rw [ht] at hstep
    cases hstep
    rcases hc with hc | hc | hc | hc
    · have := hc.1; omega
    · obtain ⟨_, hv, hfin, hfound, _⟩ := hc
      exact ⟨fun h => (by rw [hfin] at h; cases h), fun _ => ⟨_, hfound, hv⟩⟩
    · obtain ⟨_, ⟨v, hv, hvk⟩, hfin, hlow, hhigh⟩ := hc
      refine ⟨fun _ => ⟨i, ?_, ?_, hi3⟩, fun h => (by rw [hfin] at h; cases h)⟩
      · rw [hlow]
        show probeIndex s + 1 ≤ i
        by_contra hcon
        have := sorted_arrayGet_le hs hi3 hv (by omega)
        omega
      · rw [hhigh]; exact hi2
    · obtain ⟨_, ⟨v, hv, hvk⟩, hfin, hlow, hhigh⟩ := hc
      refine ⟨fun _ => ⟨i, ?_, ?_, hi3⟩, fun h => (by rw [hfin] at h; cases h)⟩
      · rw [hlow]; exact hi1
      · rw [hhigh]
        show i ≤ probeIndex s - 1
        by_contra hcon
        have := sorted_arrayGet_le hs hv hi3 (by omega)
        omega

/-- When the key is not in the array, `foundIndex` is `null` while the run is
unfinished and `-1`, with `A = 0xFF`, once it is finished. -/
theorem run_not_found_inv (s0 : State) (hk : parseKey s0.keyInput ∉ s0.array) (n : Nat)
    (s : State) (hr : stepN n (handleInitialize s0) = some s) :
    (s.isFinished = false ∧ s.foundIndex = none) ∨
    (s.isFinished = true ∧ s.foundIndex = some (-1) ∧ s.registers.A = 0xFF) := by
  refine (run_induction s0 (fun s => (s.isFinished = false ∧ s.foundIndex = none) ∨
    (s.isFinished = true ∧ s.foundIndex = some (-1) ∧ s.registers.A = 0xFF)) ?_ ?_ n s hr).2
  · exact Or.inl ⟨rfl, rfl⟩
  · intro s s' hinv hF hP hstep
    obtain ⟨t, ht, hinv', hc⟩ := hinv.step hF
    rw [ht] at hstep
    cases hstep
    rcases hc with hc | hc | hc | hc
    · exact Or.inr ⟨hc.2.1, hc.2.2.1, hc.2.2.2.1⟩
    · exact absurd (arrayGet_mem hc.2.1) hk
    · exact Or.inl ⟨hc.2.2.1, hinv'.not_found hc.2.2.1⟩
    · exact Or.inl ⟨hc.2.2.1, hinv'.not_found hc.2.2.1⟩

/-! ## The claims -/

/-- C1: on an array sorted ascending that holds the key, stepping from the
initialized state reaches a finished state whose `foundIndex` is an index `i`
with `0 ≤ i < array.length` and `array[i] = keyToSearch`. -/
theorem found_on_sorted_array (s0 : State) (hs : SortedAsc s0.array)
    (hk : (handleInitialize s0).keyToSearch ∈ s0.array) :
    ∃ n s, stepN n (handleInitialize s0) = some s ∧ s.isFinished = true ∧
      ∃ i : Int, s.foundIndex = some i ∧ 0 ≤ i ∧ i < s.array.length ∧
        arrayGet s.array i = some s.keyToSearch := by
  obtain ⟨n, _, s, hr, hfin⟩ := run_finishes s0
  obtain ⟨i, hi, hv⟩ := (run_found_inv s0 hs hk n s hr).2 hfin
  have hinv := run_inv s0 n s hr
  refine ⟨n, s, hr, hfin, i, hi, ?_⟩
  rw [hinv.array_eq, hinv.key_eq]
  exact ⟨(arrayGet_some_bounds hv).1, (arrayGet_some_bounds hv).2, hv⟩

/-- Witness of C1: the fixed array with the decimal key text `137` (`0x89`). -/
theorem found_on_sorted_array_witness :
    SortedAsc (handleKeyInputChange "137").array ∧
    (handleInitialize (handleKeyInputChange "137")).keyToSearch ∈
      (handleKeyInputChange "137").array ∧
    ∃ n s, stepN n (handleInitialize (handleKeyInputChange "137")) = some s ∧
      s.isFinished = true ∧
      ∃ i : Int, s.foundIndex = some i ∧ 0 ≤ i ∧ i < s.array.length ∧
        arrayGet s.array i = some s.keyToSearch :=
  ⟨by decide, by decide,
    found_on_sorted_array (handleKeyInputChange "137") (by decide) (by decide)⟩

/-- C2: on an array sorted ascending that does not hold the key, stepping from
the initialized state reaches a finished state with `foundIndex = -1` and
`registers.A = 0xFF`, and no state of the run has a non-negative `foundIndex`. -/
theorem not_found_on_sorted_array (s0 : State) (hs : SortedAsc s0.array)
    (hk : (handleInitialize s0).keyToSearch ∉ s0.array) :
    (∃ n s, stepN n (handleInitialize s0) = some s ∧ s.isFinished = true ∧
      s.foundIndex = some (-1) ∧ s.registers.A = 0xFF) ∧
    (∀ n, ∃ s, stepN n (handleInitialize s0) = some s ∧
      ∀ i : Int, s.foundIndex = some i → ¬ 0 ≤ i) := by
  have _ := hs
  constructor
  · obtain ⟨n, _, s, hr, hfin⟩ := run_finishes s0
    rcases run_not_found_inv s0 hk n s hr with h | h
    · rw [h.1] at hfin; cases hfin
    · exact ⟨n, s, hr, hfin, h.2.1, h.2.2⟩
  · intro n
    obtain ⟨s, hr, _⟩ := (handleInitialize_inv s0).stepN_isSome n
    refine ⟨s, hr, fun i hi => ?_⟩
    rcases run_not_found_inv s0 hk n s hr with h | h
    · rw [h.2] at hi; cases hi
    · rw [h.2.1] at hi
      cases hi
      decide

/-- Witness of C2: the fixed array with the key text `0x99`. -/
theorem not_found_on_sorted_array_witness :
    SortedAsc (handleKeyInputChange "0x99").array ∧
    (handleInitialize (handleKeyInputChange "0x99")).keyToSearch ∉
      (handleKeyInputChange "0x99").array ∧
    (handleKeyInputChange "0x99").array =
      [0x10, 0x20, 0x35, 0x42, 0x58, 0x66, 0x73, 0x89, 0x91, 0xA4] ∧
    (handleInitialize (handleKeyInputChange "0x99")).keyToSearch = 0x99 ∧
    ((∃ n s, stepN n (handleInitialize (handleKeyInputChange "0x99")) = some s ∧
      s.isFinished = true ∧ s.foundIndex = some (-1) ∧ s.registers.A = 0xFF) ∧
    (∀ n, ∃ s, stepN n (handleInitialize (handleKeyInputChange "0x99")) = some s ∧
      ∀ i : Int, s.foundIndex = some i → ¬ 0 ≤ i)) :=
  ⟨by decide, by decide, by decide, by decide,
    not_found_on_sorted_array (handleKeyInputChange "0x99") (by decide) (by decide)⟩

/-- C3: the run on the fixed array with key text `0x66` is exactly three steps:
step 1 probes `mid = 4` (`0x58 < key`) and sets `low = 5`; step 2 probes
`mid = 7` (`0x89 > key`) and sets `high = 6`; step 3 probes `mid = 5`
(`0x66 = key`) and yields `foundIndex = 5` with `isFinished = true`. -/
theorem run_0x66 :
    (initState "0x66" INITIAL_ARRAY).array =
      [0x10, 0x20, 0x35, 0x42, 0x58, 0x66, 0x73, 0x89, 0x91, 0xA4] ∧
    (initState "0x66" INITIAL_ARRAY).keyToSearch = 0x66 ∧
    (initState "0x66" INITIAL_ARRAY).low = some 0 ∧
    (initState "0x66" INITIAL_ARRAY).high = some 9 ∧
    (initState "0x66" INITIAL_ARRAY).isFinished = false ∧
    arrayGet INITIAL_ARRAY 4 = some 0x58 ∧
    (stepN 1 (initState "0x66" INITIAL_ARRAY)).map (fun s => (s.mid, s.low, s.high)) =
      some (some 4, some 5, some 9) ∧
    (stepN 1 (initState "0x66" INITIAL_ARRAY)).map (fun s => (s.foundIndex, s.isFinished)) =
      some (none, false) ∧
    arrayGet INITIAL_ARRAY 7 = some 0x89 ∧
    (stepN 2 (initState "0x66" INITIAL_ARRAY)).map (fun s => (s.mid, s.low, s.high)) =
      some (some 7, some 5, some 6) ∧
    (stepN 2 (initState "0x66" INITIAL_ARRAY)).map (fun s => (s.foundIndex, s.isFinished)) =
      some (none, false) ∧
    arrayGet INITIAL_ARRAY 5 = some 0x66 ∧
    (stepN 3 (initState "0x66" INITIAL_ARRAY)).map (fun s => (s.mid, s.low, s.high)) =
      some (some 5, some 5, some 6) ∧
    (stepN 3 (initState "0x66" INITIAL_ARRAY)).map (fun s => (s.foundIndex, s.isFinished)) =
      some (some 5, true) := by
  refine ⟨by decide, by decide, by decide, by decide, by decide, by decide, by decide,
    by decide, by decide, by decide, by decide, by decide, by decide, by decide⟩

/-- C4: on a sorted array of length `N`, the initialized state is finished
after at most `⌈log₂ (N + 1)⌉ + 1` steps (`Nat.clog 2` is the ceiling of the
base-2 logarithm). -/
theorem finishes_within_bound (s0 : State) (hs : SortedAsc s0.array) :
    ∃ n, n ≤ Nat.clog 2 (s0.array.length + 1) + 1 ∧
      ∃ s, stepN n (handleInitialize s0) = some s ∧ s.isFinished = true := by
  have _ := hs
  exact run_finishes s0

/-- Witness of C4: the fixed array, of length 10, where the bound is 5 steps. -/
theorem finishes_within_bound_witness :
    SortedAsc getInitialState.array ∧
    Nat.clog 2 (getInitialState.array.length + 1) + 1 = 5 ∧
    ∃ n, n ≤ Nat.clog 2 (getInitialState.array.length + 1) + 1 ∧
      ∃ s, stepN n (handleInitialize getInitialState) = some s ∧ s.isFinished = true :=
  ⟨by decide, by simp [getInitialState, INITIAL_ARRAY, Nat.clog],
    finishes_within_bound getInitialState (by decide)⟩

/-- C5: from every initialized, unfinished state of a run, `handleStep` returns
a state that is finished or whose `high - low` is strictly smaller. -/
theorem step_finishes_or_shrinks (s0 s : State) (hr : Reachable s0 s)
    (hI : s.isInitialized = true) (hF : s.isFinished = false) :
    ∃ s' lo hi lo' hi', handleStep s = some s' ∧
      s.low = some lo ∧ s.high = some hi ∧ s'.low = some lo' ∧ s'.high = some hi' ∧
      (s'.isFinished = true ∨ hi' - lo' < hi - lo) := by
  have _ := hI
  obtain ⟨n, hn⟩ := hr
  have hinv := run_inv s0 n s hn
  obtain ⟨s', hs', hinv', hc⟩ := hinv.step hF
  refine ⟨s', toNum s.low, toNum s.high, toNum s'.low, toNum s'.high, hs', hinv.low_some,
    hinv.high_some, hinv'.low_some, hinv'.high_some, ?_⟩
  rcases hc with hc | hc | hc | hc
  · exact Or.inl hc.2.1
  · exact Or.inl hc.2.2.1
  · obtain ⟨hle, _, _, hlow, hhigh⟩ := hc
    have hb := probeIndex_bounds s hle
    right
    rw [hlow, hhigh]
    show toNum s.high - (probeIndex s + 1) < toNum s.high - toNum s.low
    omega
  · obtain ⟨hle, _, _, hlow, hhigh⟩ := hc
    have hb := probeIndex_bounds s hle
    right
    rw [hlow, hhigh]
    show probeIndex s - 1 - toNum s.low < toNum s.high - toNum s.low
    omega

/-- Witness of C5: the state right after `handleInitialize` on the fixed array
with key text `0x66`, whose step moves `low` from 0 to 5. -/
theorem step_finishes_or_shrinks_witness :
    Reachable getInitialState (handleInitialize getInitialState) ∧
    (handleInitialize getInitialState).isInitialized = true ∧
    (handleInitialize getInitialState).isFinished = false ∧
    ∃ s' lo hi lo' hi', handleStep (handleInitialize getInitialState) = some s' ∧
      (handleInitialize getInitialState).low = some lo ∧
      (handleInitialize getInitialState).high = some hi ∧
      s'.low = some lo' ∧ s'.high = some hi' ∧
      (s'.isFinished = true ∨ hi' - lo' < hi - lo) :=
  ⟨⟨0, rfl⟩, rfl, rfl,
    step_finishes_or_shrinks getInitialState (handleInitialize getInitialState) ⟨0, rfl⟩ rfl rfl⟩

/-- C6: the state produced by `handleInitialize`, and the state after any
number of steps from it, has `low ≤ high + 1`. -/
theorem low_le_high_succ (s0 : State) (n : Nat) :
    ∃ s lo hi, stepN n (handleInitialize s0) = some s ∧
      s.low = some lo ∧ s.high = some hi ∧ lo ≤ hi + 1 := by
  obtain ⟨s, hs, hinv⟩ := (handleInitialize_inv s0).stepN_isSome n
  exact ⟨s, _, _, hs, hinv.low_some, hinv.high_some, hinv.low_le⟩

/-- C7: on a state that is not initialized or is already finished,
`handleStep` returns its input, equal in every field. -/
theorem step_idle (s : State) (h : s.isInitialized = false ∨ s.isFinished = true) :
    handleStep s = some s :=
  handleStep_idle s h.symm

/-- Witness of C7: the state before any click, which is not initialized. -/
theorem step_idle_witness :
    (getInitialState.isInitialized = false ∨ getInitialState.isFinished = true) ∧
    handleStep getInitialState = some getInitialState :=
  ⟨Or.inl rfl, step_idle getInitialState (Or.inl rfl)⟩

/-- C8 as stated fails: after the run on the fixed array with key text `0x66`
has finished in three steps, a further step returns the same state, so the
new log is not a strict extension of the previous one. -/
theorem strict_extension_counterexample :
    ∃ s, stepN 3 (initState "0x66" INITIAL_ARRAY) = some s ∧ handleStep s = some s ∧
      ¬ StrictExtension s.log s.log := by
  obtain ⟨s, hs, _⟩ := (handleInitialize_inv
    { getInitialState with keyInput := "0x66", array := INITIAL_ARRAY }).stepN_isSome 3
  have hfin : (stepN 3 (initState "0x66" INITIAL_ARRAY)).map (fun t => t.isFinished) =
      some true := by decide
  change stepN 3 (initState "0x66" INITIAL_ARRAY) = some s at hs
  rw [hs] at hfin
  refine ⟨s, hs, handleStep_idle s (Or.inl (by simpa using hfin)), fun h => h.2 rfl⟩

/-- C8, amended: the log of a state returned by `handleStep` extends the log of
its input (the old log is a prefix of the new one, so no entry is removed or
rewritten), strictly so exactly when the input is initialized and not finished. -/
theorem log_extension (s s' : State) (h : handleStep s = some s') :
    s.log <+: s'.log ∧
    (StrictExtension s.log s'.log ↔ (s.isInitialized = true ∧ s.isFinished = false)) := by
  have hstrict : ∀ lines : List String, lines ≠ [] → StrictExtension s.log (s.log ++ lines) := by
    intro lines hne
    refine ⟨List.prefix_append _ _, fun heq => hne ?_⟩
    exact List.append_right_eq_self.mp heq.symm
  by_cases hact : s.isInitialized = true ∧ s.isFinished = false
  · obtain ⟨hI, hF⟩ := hact
    have key : ∃ lines : List String, lines ≠ [] ∧ s'.log = s.log ++ lines := by
      rcases lt_or_le (toNum s.high) (toNum s.low) with hlt | hle
      · obtain ⟨l1, l2, hs⟩ := handleStep_exhausted s hI hF hlt
        rw [hs] at h; cases h
        exact ⟨[l1, l2], by simp, rfl⟩
      · cases hv : arrayGet s.array (probeIndex s) with
        | none => rw [handleStep_throws s hI hF hle hv] at h; cases h
        | some v =>
          rcases lt_trichotomy v s.keyToSearch with hvk | hvk | hvk
          · obtain ⟨lines, hs, hlen⟩ := handleStep_smaller s hI hF hle v hv hvk
            rw [hs] at h; cases h
            exact ⟨lines, by intro hc; simp [hc] at hlen, rfl⟩
          · subst hvk
            obtain ⟨lines, hs, hlen⟩ := handleStep_found s hI hF hle hv
            rw [hs] at h; cases h
            exact ⟨lines, by intro hc; simp [hc] at hlen, rfl⟩
          · obtain ⟨lines, hs, hlen⟩ := handleStep_larger s hI hF hle v hv hvk
            rw [hs] at h; cases h
            exact ⟨lines, by intro hc; simp [hc] at hlen, rfl⟩
    obtain ⟨lines, hne, hlog⟩ := key
    rw [hlog]
    exact ⟨List.prefix_append _ _, fun _ => ⟨hI, hF⟩, fun _ => hstrict lines hne⟩
  · have hidle : s.isFinished = true ∨ s.isInitialized = false := by
      cases hI : s.isInitialized <;> cases hF : s.isFinished <;> simp_all
    rw [handleStep_idle s hidle] at h
    cases h
    exact ⟨List.prefix_refl _, fun hs => absurd rfl hs.2, fun hc => absurd hc hact⟩

/-- Witness of C8 amended: the first step of the run on the fixed array with key
text `0x66`, which appends eight lines to the five-line log of the initialized state. -/
theorem log_extension_witness :
    handleStep (handleInitialize getInitialState) =
      some ((handleStep (handleInitialize getInitialState)).getD getInitialState) ∧
    ((handleStep (handleInitialize getInitialState)).getD getInitialState).log.length = 13 ∧
    ((handleInitialize getInitialState).log <+:
        ((handleStep (handleInitialize getInitialState)).getD getInitialState).log ∧
      (StrictExtension (handleInitialize getInitialState).log
          ((handleStep (handleInitialize getInitialState)).getD getInitialState).log ↔
        ((handleInitialize getInitialState).isInitialized = true ∧
          (handleInitialize getInitialState).isFinished = false))) :=
  ⟨by decide, by decide,
    log_extension (handleInitialize getInitialState)
      ((handleStep (handleInitialize getInitialState)).getD getInitialState) (by decide)⟩

/-- C9: whatever the previous state, `handleInitialize` returns a state with
`low = 0`, `high = array.length - 1`, `mid` and `foundIndex` absent,
`isInitialized = true`, `isFinished = false`,
`registers = {A: 0, B: 0, C: high, D: 0, E: key}` and `hl = 0x3000`, where `key`
is the new `keyToSearch`, parsed from the key text; the array and the key text
are those of the previous state. -/
theorem handleInitialize_fields (s0 : State) :
    (handleInitialize s0).low = some 0 ∧
    (handleInitialize s0).high = some ((s0.array.length : Int) - 1) ∧
    (handleInitialize s0).mid = none ∧
    (handleInitialize s0).foundIndex = none ∧
    (handleInitialize s0).isInitialized = true ∧
    (handleInitialize s0).isFinished = false ∧
    (handleInitialize s0).registers =
      { A := 0, B := 0, C := (s0.array.length : Int) - 1, D := 0,
        E := (handleInitialize s0).keyToSearch } ∧
    (handleInitialize s0).hl = 0x3000 ∧
    (handleInitialize s0).keyToSearch = parseKey s0.keyInput ∧
    (handleInitialize s0).array = s0.array ∧
    (handleInitialize s0).keyInput = s0.keyInput :=
  ⟨rfl, rfl, rfl, rfl, rfl, rfl, rfl, rfl, rfl, rfl, rfl⟩

/-- C10: on an initialized, unfinished state with `low ≤ high` whose probed value
`array[mid]`, `mid = floor((low + high) / 2)`, equals `keyToSearch`, `handleStep`
returns a finished state with `foundIndex = mid`, `mid = mid`,
`hl = ARRAY_ADDR + mid`, `registers.D = mid` and `registers.A = mid`; `low`,
`high`, the registers `B`, `C`, `E`, the array and `keyToSearch` are unchanged,
and the log is the old log followed by seven trace lines. -/
theorem step_found (s : State) (hI : s.isInitialized = true) (hF : s.isFinished = false)
    (hle : toNum s.low ≤ toNum s.high)
    (hv : arrayGet s.array (probeIndex s) = some s.keyToSearch) :
    probeIndex s = (toNum s.low + toNum s.high) / 2 ∧
    ∃ s' lines, handleStep s = some s' ∧
      s'.isFinished = true ∧
      s'.foundIndex = some (probeIndex s) ∧
      s'.mid = some (probeIndex s) ∧
      s'.hl = ARRAY_ADDR + probeIndex s ∧
      s'.registers.D = probeIndex s ∧
      s'.registers.A = probeIndex s ∧
      s'.low = s.low ∧ s'.high = s.high ∧
      s'.registers.B = s.registers.B ∧
      s'.registers.C = s.registers.C ∧
      s'.registers.E = s.registers.E ∧
      s'.array = s.array ∧
      s'.keyToSearch = s.keyToSearch ∧
      s'.keyInput = s.keyInput ∧
      s'.isInitialized = true ∧
      s'.log = s.log ++ lines ∧ lines.length = 7 := by
  refine ⟨probeIndex_eq s, ?_⟩
  obtain ⟨lines, hs, hlen⟩ := handleStep_found s hI hF hle hv
  exact ⟨_, lines, hs, rfl, rfl, rfl, rfl, rfl, rfl, rfl, rfl, rfl, rfl, rfl, rfl, rfl, rfl,
    hI, rfl, hlen⟩

/-- Witness of C10: the fixed array with `low = 5`, `high = 6` and key `0x66`,
which is the value at the probed index 5. -/
theorem step_found_witness :
    (handleInitialize getInitialState).isInitialized = true ∧
    (handleInitialize getInitialState).isFinished = false ∧
    probeIndex { handleInitialize getInitialState with low := some 5, high := some 6 } = 5 ∧
    arrayGet (handleInitialize getInitialState).array 5 = some 0x66 ∧
    (probeIndex { handleInitialize getInitialState with low := some 5, high := some 6 } =
      (5 + 6) / 2 ∧
    ∃ s' lines,
      handleStep { handleInitialize getInitialState with low := some 5, high := some 6 } =
        some s' ∧
      s'.isFinished = true ∧
      s'.foundIndex = some 5 ∧
      s'.mid = some 5 ∧
      s'.hl = 0x3005 ∧
      s'.registers.D = 5 ∧
      s'.registers.A = 5 ∧
      s'.low = some 5 ∧ s'.high = some 6 ∧
      s'.registers.B = 0 ∧
      s'.registers.C = 9 ∧
      s'.registers.E = 0x66 ∧
      s'.array = INITIAL_ARRAY ∧
      s'.keyToSearch = 0x66 ∧
      s'.keyInput = "0x66" ∧
      s'.isInitialized = true ∧
      s'.log = (handleInitialize getInitialState).log ++ lines ∧ lines.length = 7) :=
  ⟨rfl, rfl, by decide, by decide,
    step_found { handleInitialize getInitialState with low := some 5, high := some 6 }
      rfl rfl (by decide) (by decide)⟩

/-! ## Further lemmas on steps and runs -/

/-- The four results of a step from an initialized, unfinished state. -/
theorem handleStep_cases (s s' : State) (hI : s.isInitialized = true)
    (hF : s.isFinished = false) (h : handleStep s = some s') :
    (toNum s.high < toNum s.low ∧ ∃ l1 l2 : String, s' = { s with
        log := s.log ++ [l1, l2]
        registers := { s.registers with A := 0xFF }
        foundIndex := some (-1)
        isFinished := true }) ∨
    (toNum s.low ≤ toNum s.high ∧
      arrayGet s.array (probeIndex s) = some s.keyToSearch ∧
      ∃ lines : List String, s' = { s with
        log := s.log ++ lines
        registers := { s.registers with A := probeIndex s, D := probeIndex s }
        hl := ARRAY_ADDR + probeIndex s
        mid := some (probeIndex s)
        foundIndex := some (probeIndex s)
        isFinished := true }) ∨
    (toNum s.low ≤ toNum s.high ∧
      ∃ v, arrayGet s.array (probeIndex s) = some v ∧ v < s.keyToSearch ∧
      ∃ lines : List String, s' = { s with
        log := s.log ++ lines
        registers := { s.registers with A := v, D := probeIndex s, B := probeIndex s + 1 }
        hl := ARRAY_ADDR + probeIndex s
        mid := some (probeIndex s)
        low := some (probeIndex s + 1) }) ∨
    (toNum s.low ≤ toNum s.high ∧
      ∃ v, arrayGet s.array (probeIndex s) = some v ∧ s.keyToSearch < v ∧
      ∃ lines : List String, s' = { s with
        log := s.log ++ lines
        registers := { s.registers with A := v, D := probeIndex s, C := probeIndex s - 1 }
        hl := ARRAY_ADDR + probeIndex s
        mid := some (probeIndex s)
        high := some (probeIndex s - 1) }) := by
  rcases lt_or_le (toNum s.high) (toNum s.low) with hlt | hle
  · obtain ⟨l1, l2, hs⟩ := handleStep_exhausted s hI hF hlt
    rw [hs] at h
    exact Or.inl ⟨hlt, l1, l2, (Option.some.inj h).symm⟩
  · cases hv : arrayGet s.array (probeIndex s) with
    | none => rw [handleStep_throws s hI hF hle hv] at h; cases h
    | some v =>
      rcases lt_trichotomy v s.keyToSearch with hvk | hvk | hvk
      · obtain ⟨lines, hs, _⟩ := handleStep_smaller s hI hF hle v hv hvk
        rw [hs] at h
        exact Or.inr (Or.inr (Or.inl ⟨hle, v, rfl, hvk, lines, (Option.some.inj h).symm⟩))
      · subst hvk
        obtain ⟨lines, hs, _⟩ := handleStep_found s hI hF hle hv
        rw [hs] at h
        exact Or.inr (Or.inl ⟨hle, rfl, lines, (Option.some.inj h).symm⟩)
      · obtain ⟨lines, hs, _⟩ := handleStep_larger s hI hF hle v hv hvk
        rw [hs] at h
        exact Or.inr (Or.inr (Or.inr ⟨hle, v, rfl, hvk, lines, (Option.some.inj h).symm⟩))

theorem stepN_add (n m : Nat) (s : State) :
    stepN (n + m) s = (stepN n s).bind (stepN m) := by
  induction m with
  | zero =>
    show stepN n s = _
    cases stepN n s <;> rfl
  | succ m ih =>
    show (stepN (n + m) s).bind handleStep = _
    rw [ih]
    cases stepN n s with
    | none => rfl
    | some t => rfl

/-- The registers of a run state mirror its search variables. -/
theorem run_mirror (s0 : State) (n : Nat) (s : State)
    (hr : stepN n (handleInitialize s0) = some s) :
    some s.registers.B = s.low ∧ some s.registers.C = s.high ∧
    s.registers.E = s.keyToSearch ∧
    (∀ m, s.mid = some m → s.registers.D = m ∧ s.hl = ARRAY_ADDR + m) ∧
    (s.mid = none → s.hl = ARRAY_ADDR ∧ s.registers.D = 0) := by
  refine (run_induction s0 (fun s => some s.registers.B = s.low ∧ some s.registers.C = s.high ∧
    s.registers.E = s.keyToSearch ∧
    (∀ m, s.mid = some m → s.registers.D = m ∧ s.hl = ARRAY_ADDR + m) ∧
    (s.mid = none → s.hl = ARRAY_ADDR ∧ s.registers.D = 0)) ?_ ?_ n s hr).2
  · exact ⟨rfl, rfl, rfl, fun m h => (by cases h), fun _ => ⟨rfl, rfl⟩⟩
  · intro s s' hinv hF ⟨hB, hC, hE, hD, hN⟩ hstep
    rcases handleStep_cases s s' hinv.init hF hstep with
      ⟨_, l1, l2, rfl⟩ | ⟨_, _, lines, rfl⟩ | ⟨_, v, _, _, lines, rfl⟩ | ⟨_, v, _, _, lines, rfl⟩
    · exact ⟨hB, hC, hE, hD, hN⟩
    · refine ⟨hB, hC, hE, fun m hm => ?_, fun h => by cases h⟩
      cases hm
      exact ⟨rfl, rfl⟩
    · refine ⟨rfl, hC, hE, fun m hm => ?_, fun h => by cases h⟩
      cases hm
      exact ⟨rfl, rfl⟩
    · refine ⟨hB, rfl, hE, fun m hm => ?_, fun h => by cases h⟩
      cases hm
      exact ⟨rfl, rfl⟩

/-- In a run state `foundIndex` is a number exactly when the state is finished. -/
theorem run_foundIndex_iff (s0 : State) (n : Nat) (s : State)
    (hr : stepN n (handleInitialize s0) = some s) :
    (s.isFinished = true → ∃ i, s.foundIndex = some i) ∧
    (s.isFinished = false → s.foundIndex = none) := by
  refine (run_induction s0 (fun s => (s.isFinished = true → ∃ i, s.foundIndex = some i) ∧
    (s.isFinished = false → s.foundIndex = none)) ?_ ?_ n s hr).2
  · exact ⟨fun h => (by cases h), fun _ => rfl⟩
  · intro s s' hinv hF ⟨_, hN⟩ hstep
    rcases handleStep_cases s s' hinv.init hF hstep with
      ⟨_, l1, l2, rfl⟩ | ⟨_, _, lines, rfl⟩ | ⟨_, v, _, _, lines, rfl⟩ | ⟨_, v, _, _, lines, rfl⟩
    · exact ⟨fun _ => ⟨_, rfl⟩, fun h => by cases h⟩
    · exact ⟨fun _ => ⟨_, rfl⟩, fun h => by cases h⟩
    · exact ⟨fun h => (by rw [hF] at h; cases h), fun _ => hN hF⟩
    · exact ⟨fun h => (by rw [hF] at h; cases h), fun _ => hN hF⟩

/-! ## The claims, continued -/

/-- C11: on an initialized, unfinished state with `low ≤ high` whose probed value
`array[mid]`, `mid = floor((low + high) / 2)`, differs from `keyToSearch`:
if `array[mid] < keyToSearch`, `handleStep` sets `low = mid + 1` and
`registers.B = mid + 1` and leaves `high` and `registers.C`; if
`array[mid] > keyToSearch`, it sets `high = mid - 1` and `registers.C = mid - 1`
and leaves `low` and `registers.B`.  In both cases `registers.A = array[mid]`,
`registers.D = mid`, `mid = mid`, `hl = ARRAY_ADDR + mid`, `isFinished` stays
false, `foundIndex` is unchanged (so stays absent), and the log is the old log
followed by eight trace lines. -/
theorem step_narrows (s : State) (hI : s.isInitialized = true) (hF : s.isFinished = false)
    (hle : toNum s.low ≤ toNum s.high) (v : Int)
    (hv : arrayGet s.array (probeIndex s) = some v) (hne : v ≠ s.keyToSearch) :
    probeIndex s = (toNum s.low + toNum s.high) / 2 ∧
    ∃ s' lines, handleStep s = some s' ∧
      (v < s.keyToSearch →
        s'.low = some (probeIndex s + 1) ∧ s'.registers.B = probeIndex s + 1 ∧
        s'.high = s.high ∧ s'.registers.C = s.registers.C) ∧
      (s.keyToSearch < v →
        s'.high = some (probeIndex s - 1) ∧ s'.registers.C = probeIndex s - 1 ∧
        s'.low = s.low ∧ s'.registers.B = s.registers.B) ∧
      s'.registers.A = v ∧
      s'.registers.D = probeIndex s ∧
      s'.mid = some (probeIndex s) ∧
      s'.hl = ARRAY_ADDR + probeIndex s ∧
      s'.isFinished = false ∧
      s'.foundIndex = s.foundIndex ∧
      s'.registers.E = s.registers.E ∧
      s'.array = s.array ∧
      s'.keyToSearch = s.keyToSearch ∧
      s'.keyInput = s.keyInput ∧
      s'.isInitialized = true ∧
      s'.log = s.log ++ lines ∧ lines.length = 8 := by
  refine ⟨probeIndex_eq s, ?_⟩
  rcases lt_or_gt_of_ne hne with hlt | hgt
  · obtain ⟨lines, hs, hlen⟩ := handleStep_smaller s hI hF hle v hv hlt
    exact ⟨_, lines, hs, fun _ => ⟨rfl, rfl, rfl, rfl⟩, fun h => absurd hlt (not_lt.mpr h.le),
      rfl, rfl, rfl, rfl, hF, rfl, rfl, rfl, rfl, rfl, hI, rfl, hlen⟩
  · obtain ⟨lines, hs, hlen⟩ := handleStep_larger s hI hF hle v hv hgt
    exact ⟨_, lines, hs, fun h => absurd hgt (not_lt.mpr h.le), fun _ => ⟨rfl, rfl, rfl, rfl⟩,
      rfl, rfl, rfl, rfl, hF, rfl, rfl, rfl, rfl, rfl, hI, rfl, hlen⟩

/-- Witness of C11: on the fixed array with key `0x66`, the initialized state
(`low = 0`, `high = 9`) probes index 4, where `0x58 < 0x66`, and the state with
`low = 5`, `high = 9` probes index 7, where `0x89 > 0x66`. -/
theorem step_narrows_witness :
    (arrayGet (handleInitialize getInitialState).array
        (probeIndex (handleInitialize getInitialState)) = some 0x58 ∧
      (0x58 : Int) < (handleInitialize getInitialState).keyToSearch ∧
      ∃ s', handleStep (handleInitialize getInitialState) = some s' ∧
        s'.low = some 5 ∧ s'.registers.B = 5 ∧ s'.high = some 9 ∧ s'.registers.C = 9 ∧
        s'.registers.A = 0x58 ∧ s'.registers.D = 4 ∧ s'.mid = some 4 ∧ s'.hl = 0x3004 ∧
        s'.isFinished = false ∧ s'.foundIndex = none) ∧
    (arrayGet { handleInitialize getInitialState with low := some 5 }.array
        (probeIndex { handleInitialize getInitialState with low := some 5 }) = some 0x89 ∧
      (handleInitialize getInitialState).keyToSearch < (0x89 : Int) ∧
      ∃ s', handleStep { handleInitialize getInitialState with low := some 5 } = some s' ∧
        s'.high = some 6 ∧ s'.registers.C = 6 ∧ s'.low = some 5 ∧ s'.registers.B = 0 ∧
        s'.registers.A = 0x89 ∧ s'.registers.D = 7 ∧ s'.mid = some 7 ∧ s'.hl = 0x3007 ∧
        s'.isFinished = false ∧ s'.foundIndex = none) := by
  have h1 := step_narrows (handleInitialize getInitialState) rfl rfl (by decide) 0x58
    (by decide) (by decide)
  have h2 := step_narrows { handleInitialize getInitialState with low := some 5 } rfl rfl
    (by decide) 0x89 (by decide) (by decide)
  obtain ⟨_, s1, _, hs1, hlt1, _, hA1, hD1, hm1, hh1, hF1, hf1, _⟩ := h1
  obtain ⟨_, s2, _, hs2, _, hgt2, hA2, hD2, hm2, hh2, hF2, hf2, _⟩ := h2
  obtain ⟨a1, a2, a3, a4⟩ := hlt1 (by decide)
  obtain ⟨b1, b2, b3, b4⟩ := hgt2 (by decide)
  exact ⟨⟨by decide, by decide, s1, hs1, a1, a2, a3, a4, hA1, hD1, hm1, hh1, hF1, hf1⟩,
    ⟨by decide, by decide, s2, hs2, b1, b2, b3, b4, hA2, hD2, hm2, hh2, hF2, hf2⟩⟩

/-- C12: on an initialized, unfinished state with `low > high`, `handleStep`
returns a finished state with `foundIndex = -1` and `registers.A = 0xFF` whose
log is the old log followed by exactly two lines, the loop check that reports
the exhausted interval and the not-found line; `low`, `high`, `mid`, `hl`, the
registers `B`, `C`, `D`, `E`, the array and `keyToSearch` are unchanged. -/
theorem step_exhausted (s : State) (hI : s.isInitialized = true) (hF : s.isFinished = false)
    (hgt : toNum s.low > toNum s.high) :
    ∃ s', handleStep s = some s' ∧
      s'.isFinished = true ∧
      s'.foundIndex = some (-1) ∧
      s'.registers.A = 0xFF ∧
      s'.log = s.log ++ [
        "LOOP CHECK: low (" ++ optToString s.low ++ ") > high (" ++ optToString s.high ++
          "). Key not found.",
        "NOT_FOUND: MVI A, FFH" ] ∧
      s'.low = s.low ∧ s'.high = s.high ∧ s'.mid = s.mid ∧ s'.hl = s.hl ∧
      s'.registers.B = s.registers.B ∧ s'.registers.C = s.registers.C ∧
      s'.registers.D = s.registers.D ∧ s'.registers.E = s.registers.E ∧
      s'.array = s.array ∧ s'.keyToSearch = s.keyToSearch ∧
      s'.keyInput = s.keyInput ∧ s'.isInitialized = true := by
  refine ⟨{ s with
      log := s.log ++ [
        "LOOP CHECK: low (" ++ optToString s.low ++ ") > high (" ++ optToString s.high ++
          "). Key not found.",
        "NOT_FOUND: MVI A, FFH" ]
      registers := { s.registers with A := 0xFF }
      foundIndex := some (-1)
      isFinished := true }, ?_, rfl, rfl, rfl, rfl, rfl, rfl, rfl, rfl, rfl, rfl, rfl, rfl, rfl,
      rfl, rfl, hI⟩
  unfold handleStep
  simp only [hI, hF, hgt]
  rfl

/-- Witness of C12: the fixed array with `low = 9`, `high = 8`, the state the
run with key text `0x99` is in after four probes. -/
theorem step_exhausted_witness :
    { handleInitialize getInitialState with low := some 9, high := some 8 }.isInitialized =
      true ∧
    { handleInitialize getInitialState with low := some 9, high := some 8 }.isFinished =
      false ∧
    toNum { handleInitialize getInitialState with low := some 9, high := some 8 }.low >
      toNum { handleInitialize getInitialState with low := some 9, high := some 8 }.high ∧
    ∃ s', handleStep { handleInitialize getInitialState with low := some 9, high := some 8 } =
        some s' ∧
      s'.isFinished = true ∧
      s'.foundIndex = some (-1) ∧
      s'.registers.A = 0xFF ∧
      s'.log = (handleInitialize getInitialState).log ++ [
        "LOOP CHECK: low (9) > high (8). Key not found.",
        "NOT_FOUND: MVI A, FFH" ] ∧
      s'.low = some 9 ∧ s'.high = some 8 ∧ s'.mid = none ∧ s'.hl = 0x3000 ∧
      s'.registers.B = 0 ∧ s'.registers.C = 9 ∧
      s'.registers.D = 0 ∧ s'.registers.E = 0x66 ∧
      s'.array = INITIAL_ARRAY ∧ s'.keyToSearch = 0x66 ∧
      s'.keyInput = "0x66" ∧ s'.isInitialized = true :=
  ⟨rfl, rfl, by decide,
    step_exhausted { handleInitialize getInitialState with low := some 9, high := some 8 }
      rfl rfl (by decide)⟩

/-- C15: in a run, `foundIndex` is present exactly in the finished states.  For
every number of steps `n` the state `s` after `n` steps exists; `foundIndex` is a
number in `s` exactly when `s` is finished (so it is absent in every unfinished
state); if `s` is unfinished and its step yields a finished state, that step
sets `foundIndex`; and if `s` is finished, the state after any further steps is
`s` itself, so `foundIndex` keeps its value. -/
theorem foundIndex_set_once (s0 : State) (n : Nat) :
    ∃ s, stepN n (handleInitialize s0) = some s ∧
      ((∃ i, s.foundIndex = some i) ↔ s.isFinished = true) ∧
      (s.foundIndex = none ↔ s.isFinished = false) ∧
      (s.isFinished = false → ∃ t, handleStep s = some t ∧
        (t.isFinished = true → t.foundIndex ≠ s.foundIndex ∧ ∃ i, t.foundIndex = some i)) ∧
      (s.isFinished = true → ∀ m, stepN (n + m) (handleInitialize s0) = some s) := by
  obtain ⟨s, hs, hinv⟩ := (handleInitialize_inv s0).stepN_isSome n
  obtain ⟨h1, h2⟩ := run_foundIndex_iff s0 n s hs
  refine ⟨s, hs, ⟨fun ⟨i, hi⟩ => ?_, h1⟩, ⟨fun hnone => ?_, h2⟩, fun hF => ?_, fun hfin m => ?_⟩
  · cases hF : s.isFinished with
    | true => rfl
    | false => rw [h2 hF] at hi; cases hi
  · cases hF : s.isFinished with
    | false => rfl
    | true =>
      obtain ⟨i, hi⟩ := h1 hF
      rw [hi] at hnone; cases hnone
  · obtain ⟨t, ht, _, _⟩ := hinv.step hF
    refine ⟨t, ht, fun htfin => ?_⟩
    have hs' : stepN (n + 1) (handleInitialize s0) = some t := by
      show (stepN n (handleInitialize s0)).bind handleStep = some t
      rw [hs]; exact ht
    obtain ⟨i, hi⟩ := (run_foundIndex_iff s0 (n + 1) t hs').1 htfin
    refine ⟨?_, i, hi⟩
    rw [hi, h2 hF]
    exact fun h => by cases h
  · rw [stepN_add, hs]
    exact stepN_of_finished m s hfin

/-- C16: in every run state in which `handleStep` probes (initialized, not
finished, `low ≤ high`), the index `mid = floor((low + high) / 2)` satisfies
`low ≤ mid ≤ high` and `0 ≤ mid < array.length`, and the read `array[mid]`
yields a value. -/
theorem probe_in_range (s0 s : State) (hr : Reachable s0 s) (hI : s.isInitialized = true)
    (hF : s.isFinished = false) (hle : toNum s.low ≤ toNum s.high) :
    ∃ lo hi, s.low = some lo ∧ s.high = some hi ∧
      probeIndex s = (lo + hi) / 2 ∧
      lo ≤ probeIndex s ∧ probeIndex s ≤ hi ∧
      0 ≤ probeIndex s ∧ probeIndex s < s.array.length ∧
      (∃ v, arrayGet s.array (probeIndex s) = some v) ∧
      ∃ s', handleStep s = some s' ∧ s'.mid = some (probeIndex s) := by
  have _ := hI
  obtain ⟨n, hn⟩ := hr
  have hinv := run_inv s0 n s hn
  obtain ⟨hb1, hb2⟩ := probeIndex_bounds s hle
  have h0 : 0 ≤ probeIndex s := le_trans hinv.low_nonneg hb1
  have h1 : probeIndex s < s.array.length := by
    rw [hinv.array_eq]
    exact lt_of_le_of_lt hb2 hinv.high_lt
  obtain ⟨s', hs', _, hc⟩ := hinv.step hF
  refine ⟨toNum s.low, toNum s.high, hinv.low_some, hinv.high_some, probeIndex_eq s, hb1, hb2,
    h0, h1, arrayGet_isSome _ _ h0 h1, s', hs', ?_⟩
  rcases handleStep_cases s s' hinv.init hF hs' with
    ⟨hlt, _⟩ | ⟨_, _, lines, rfl⟩ | ⟨_, v, _, _, lines, rfl⟩ | ⟨_, v, _, _, lines, rfl⟩
  · exact absurd hle (not_le.mpr hlt)
  · rfl
  · rfl
  · rfl

/-- Witness of C16: the initialized state on the fixed array (`low = 0`,
`high = 9`), which probes index 4. -/
theorem probe_in_range_witness :
    Reachable getInitialState (handleInitialize getInitialState) ∧
    (handleInitialize getInitialState).isInitialized = true ∧
    (handleInitialize getInitialState).isFinished = false ∧
    toNum (handleInitialize getInitialState).low ≤
      toNum (handleInitialize getInitialState).high ∧
    probeIndex (handleInitialize getInitialState) = 4 ∧
    ∃ lo hi, (handleInitialize getInitialState).low = some lo ∧
      (handleInitialize getInitialState).high = some hi ∧
      probeIndex (handleInitialize getInitialState) = (lo + hi) / 2 ∧
      lo ≤ probeIndex (handleInitialize getInitialState) ∧
      probeIndex (handleInitialize getInitialState) ≤ hi ∧
      0 ≤ probeIndex (handleInitialize getInitialState) ∧
      probeIndex (handleInitialize getInitialState) <
        (handleInitialize getInitialState).array.length ∧
      (∃ v, arrayGet (handleInitialize getInitialState).array
        (probeIndex (handleInitialize getInitialState)) = some v) ∧
      ∃ s', handleStep (handleInitialize getInitialState) = some s' ∧
        s'.mid = some (probeIndex (handleInitialize getInitialState)) :=
  ⟨⟨0, rfl⟩, rfl, rfl, by decide, by decide,
    probe_in_range getInitialState (handleInitialize getInitialState) ⟨0, rfl⟩ rfl rfl
      (by decide)⟩

/-- C17: in the state produced by `handleInitialize`, and after any number of
steps from it, the registers mirror the search variables: `registers.B = low`,
`registers.C = high`, `registers.E = keyToSearch`; whenever `mid` is present
`registers.D = mid` and `hl = ARRAY_ADDR + mid`, and while `mid` is absent
`hl = ARRAY_ADDR`. -/
theorem registers_mirror (s0 : State) (n : Nat) :
    ∃ s, stepN n (handleInitialize s0) = some s ∧
      some s.registers.B = s.low ∧
      some s.registers.C = s.high ∧
      s.registers.E = s.keyToSearch ∧
      (∀ m, s.mid = some m → s.registers.D = m ∧ s.hl = ARRAY_ADDR + m) ∧
      (s.mid = none → s.hl = ARRAY_ADDR) := by
  obtain ⟨s, hs, _⟩ := (handleInitialize_inv s0).stepN_isSome n
  obtain ⟨hB, hC, hE, hD, hN⟩ := run_mirror s0 n s hs
  exact ⟨s, hs, hB, hC, hE, hD, fun h => (hN h).1⟩

theorem parseInt_nonneg (string : String) (radix : Nat) (x : Int)
    (hsign : ∀ rest, trimStart string.data ≠ '-' :: rest)
    (h : parseInt string radix = some x) : 0 ≤ x := by
  unfold parseInt at h
  simp only at h
  split at h
  · cases h
  · cases h
    exact mul_nonneg (by decide) (Int.ofNat_nonneg _)

theorem parseKey_nonneg (keyInput : String)
    (hsign : ∀ rest, trimStart keyInput.data ≠ '-' :: rest) : 0 ≤ parseKey keyInput := by
  unfold parseKey
  cases h : parseInt keyInput (if startsWith0x keyInput = true then 16 else 10) with
  | none => simp
  | some x => exact parseInt_nonneg _ _ x hsign h

/-- On an array of non-negative numbers, `hl` and the registers `A`, `B`, `D` of a
run state are non-negative and `C` is at least `-1`. -/
theorem run_register_ranges (s0 : State) (harr : ∀ v ∈ s0.array, 0 ≤ v) (n : Nat) (s : State)
    (hr : stepN n (handleInitialize s0) = some s) :
    0 ≤ s.hl ∧ 0 ≤ s.registers.A ∧ 0 ≤ s.registers.B ∧ 0 ≤ s.registers.D ∧
      -1 ≤ s.registers.C := by
  refine (run_induction s0 (fun s => 0 ≤ s.hl ∧ 0 ≤ s.registers.A ∧ 0 ≤ s.registers.B ∧
    0 ≤ s.registers.D ∧ -1 ≤ s.registers.C) ?_ ?_ n s hr).2
  · refine ⟨(by decide : (0 : Int) ≤ 0x3000), le_refl _, le_refl _, le_refl _, ?_⟩
    show (-1 : Int) ≤ (s0.array.length : Int) - 1
    omega
  · intro s s' hinv hF ⟨hhl, hA, hB, hD, hC⟩ hstep
    have haddr : ARRAY_ADDR = 0x3000 := rfl
    rcases handleStep_cases s s' hinv.init hF hstep with
      ⟨_, l1, l2, rfl⟩ | ⟨hle, _, lines, rfl⟩ | ⟨hle, v, hv, _, lines, rfl⟩ |
      ⟨hle, v, hv, _, lines, rfl⟩
    · exact ⟨hhl, (by decide : (0 : Int) ≤ 0xFF), hB, hD, hC⟩
    · have hb := (probeIndex_bounds s hle).1
      have h0 := hinv.low_nonneg
      refine ⟨?_, ?_, hB, ?_, hC⟩
      · show 0 ≤ ARRAY_ADDR + probeIndex s
        omega
      · show 0 ≤ probeIndex s
        omega
      · show 0 ≤ probeIndex s
        omega
    · have hb := (probeIndex_bounds s hle).1
      have h0 := hinv.low_nonneg
      have hv0 : 0 ≤ v := harr v (hinv.array_eq ▸ arrayGet_mem hv)
      refine ⟨?_, hv0, ?_, ?_, hC⟩
      · show 0 ≤ ARRAY_ADDR + probeIndex s
        omega
      · show 0 ≤ probeIndex s + 1
        omega
      · show 0 ≤ probeIndex s
        omega
    · have hb := (probeIndex_bounds s hle).1
      have h0 := hinv.low_nonneg
      have hv0 : 0 ≤ v := harr v (hinv.array_eq ▸ arrayGet_mem hv)
      refine ⟨?_, hv0, hB, ?_, ?_⟩
      · show 0 ≤ ARRAY_ADDR + probeIndex s
        omega
      · show 0 ≤ probeIndex s
        omega
      · show -1 ≤ probeIndex s - 1
        omega

/-- C18 as stated fails: the key text `-5` is read as `-5`, so `keyToSearch` and
`registers.E` are negative from the initialized state on; and on the fixed
array with key text `5` the third step sets `high` and `registers.C` to `-1`. -/
theorem unsigned_counterexample :
    (handleInitialize (handleKeyInputChange "-5")).keyToSearch = -5 ∧
    (handleInitialize (handleKeyInputChange "-5")).registers.E = -5 ∧
    (stepN 3 (handleInitialize (handleKeyInputChange "5"))).map
      (fun s => (s.high, s.registers.C, s.isFinished)) = some (some (-1), -1, false) :=
  ⟨by decide, by decide, by decide⟩

/-- C18, amended: on an array of non-negative numbers, in the state produced by
`handleInitialize` and after any number of steps, `hl` and the registers `A`,
`B`, `D` are non-negative and `registers.C` is at least `-1`; `keyToSearch` and
`registers.E` are the parsed key, which is non-negative whenever the key text,
after leading white space, does not begin with a minus sign. -/
theorem registers_bounds (s0 : State) (harr : ∀ v ∈ s0.array, 0 ≤ v) (n : Nat) :
    ∃ s, stepN n (handleInitialize s0) = some s ∧
      0 ≤ s.hl ∧ 0 ≤ s.registers.A ∧ 0 ≤ s.registers.B ∧ 0 ≤ s.registers.D ∧
      -1 ≤ s.registers.C ∧
      s.keyToSearch = parseKey s0.keyInput ∧ s.registers.E = parseKey s0.keyInput ∧
      ((∀ rest, trimStart s0.keyInput.data ≠ '-' :: rest) →
        0 ≤ s.keyToSearch ∧ 0 ≤ s.registers.E) := by
  obtain ⟨s, hs, hinv⟩ := (handleInitialize_inv s0).stepN_isSome n
  obtain ⟨h1, h2, h3, h4, h5⟩ := run_register_ranges s0 harr n s hs
  have hE := (run_mirror s0 n s hs).2.2.1
  refine ⟨s, hs, h1, h2, h3, h4, h5, hinv.key_eq, hE.trans hinv.key_eq, fun hsign => ?_⟩
  rw [hE, hinv.key_eq]
  exact ⟨parseKey_nonneg _ hsign, parseKey_nonneg _ hsign⟩

/-- Witness of C18 amended: the fixed array with key text `5` after three steps,
where `registers.C` is `-1` and everything else is non-negative. -/
theorem registers_bounds_witness :
    (∀ v ∈ (handleKeyInputChange "5").array, 0 ≤ v) ∧
    (stepN 3 (handleInitialize (handleKeyInputChange "5"))).map
      (fun s => (s.registers.A, s.registers.C, s.keyToSearch)) = some (0x10, -1, 5) ∧
    ∃ s, stepN 3 (handleInitialize (handleKeyInputChange "5")) = some s ∧
      0 ≤ s.hl ∧ 0 ≤ s.registers.A ∧ 0 ≤ s.registers.B ∧ 0 ≤ s.registers.D ∧
      -1 ≤ s.registers.C ∧
      s.keyToSearch = parseKey (handleKeyInputChange "5").keyInput ∧
      s.registers.E = parseKey (handleKeyInputChange "5").keyInput ∧
      ((∀ rest, trimStart (handleKeyInputChange "5").keyInput.data ≠ '-' :: rest) →
        0 ≤ s.keyToSearch ∧ 0 ≤ s.registers.E) :=
  ⟨by decide, by decide, registers_bounds (handleKeyInputChange "5") (by decide) 3⟩

/-! ## Reading a key text -/

theorem digitValue_hex_of_mem : ∀ c ∈ hexDigitChars, digitValue 16 c = some (charValue c) := by
  decide

theorem digitValue_dec_of_mem : ∀ c ∈ decDigitChars, digitValue 10 c = some (charValue c) := by
  decide

theorem takeDigits_of_all (radix : Nat) (ds : List Char)
    (h : ∀ c ∈ ds, digitValue radix c = some (charValue c)) :
    takeDigits radix ds = ds.map charValue := by
  induction ds with
  | nil => rfl
  | cons c cs ih =>
    have hc := h c (List.mem_cons_self _ _)
    have hcs := ih (fun d hd => h d (List.mem_cons_of_mem _ hd))
    simp only [takeDigits, hc, hcs, List.map_cons]

theorem foldl_digits (base : Nat) (ds : List Nat) (a : Nat) :
    ds.foldl (fun acc d => acc * base + d) a =
      a * base ^ ds.length + Nat.ofDigits base ds.reverse := by
  induction ds generalizing a with
  | nil => simp
  | cons d ds ih =>
    rw [List.foldl_cons, ih, List.reverse_cons, Nat.ofDigits_append, Nat.ofDigits_singleton,
      List.length_reverse, List.length_cons]
    ring

theorem digitsToNat_map (base : Nat) (ds : List Char) :
    digitsToNat base (ds.map charValue) = textValue base ds := by
  unfold digitsToNat textValue
  rw [foldl_digits, List.map_reverse]
  simp

theorem toDouble_of_lt (n : Nat) (h : n < 2 ^ 53) : toDouble n = n := by
  unfold toDouble
  rw [if_pos h]


theorem trimStart_cons (c : Char) (cs : List Char) (h : isStrWhiteSpaceChar c = false) :
    trimStart (c :: cs) = c :: cs := by
  simp [trimStart, h]

theorem parseInt_hex (string : String) (ds : List Char)
    (h : string.data = '0' :: 'x' :: ds ∨ string.data = '0' :: 'X' :: ds) :
    parseInt string 16 =
      match takeDigits 16 ds with
      | [] => none
      | l => some ((toDouble (digitsToNat 16 l) : Nat) : Int) := by
  unfold parseInt
  rcases h with h | h
  · rw [h, trimStart_cons _ _ (by decide)]
    simp
  · rw [h, trimStart_cons _ _ (by decide)]
    simp


theorem char_eq_of_toNat {c : Char} {n : Nat} (h : c.toNat = n) : c = Char.ofNat n := by
  rw [← h]
  exact (Char.ofNat_toNat c).symm

theorem toLower_eq_x {c : Char} (h : c.toLower = 'x') : c = 'x' ∨ c = 'X' := by
  unfold Char.toLower at h
  simp only at h
  split at h
  · rename_i hn
    obtain ⟨h1, h2⟩ := hn
    right
    have h3 : c.toNat = 88 := by
      generalize c.toNat = n at h h1 h2
      interval_cases n <;> first | rfl | (exact absurd h (by decide))
    exact char_eq_of_toNat h3
  · exact Or.inl h

theorem toLower_eq_zero {c : Char} (h : c.toLower = '0') : c = '0' := by
  unfold Char.toLower at h
  simp only at h
  split at h
  · rename_i hn
    obtain ⟨h1, h2⟩ := hn
    exfalso
    generalize c.toNat = n at h h1 h2
    interval_cases n <;> exact absurd h (by decide)
  · exact h

theorem startsWith0x_iff (keyInput : String) :
    startsWith0x keyInput = true ↔
      ∃ rest, keyInput.data = '0' :: 'x' :: rest ∨ keyInput.data = '0' :: 'X' :: rest := by
  unfold startsWith0x
  constructor
  · intro h
    split at h
    · rename_i rest heq
      match hd : keyInput.data, heq with
      | [], heq => simp at heq
      | [_], heq => simp at heq
      | c1 :: c2 :: cs, heq =>
        simp only [List.map_cons, List.cons.injEq] at heq
        obtain ⟨e1, e2, _⟩ := heq
        have := toLower_eq_zero e1
        subst this
        rcases toLower_eq_x e2 with e | e
        · subst e; exact ⟨cs, Or.inl rfl⟩
        · subst e; exact ⟨cs, Or.inr rfl⟩
    · cases h
  · rintro ⟨rest, h | h⟩
    · rw [h]; rfl
    · rw [h]; rfl


theorem parseInt_dec (string : String) :
    parseInt string 10 =
      match takeDigits 10 (dropSign (trimStart string.data)) with
      | [] => none
      | l => some ((match trimStart string.data with
          | '-' :: _ => (-1 : Int)
          | _ => 1) * ((toDouble (digitsToNat 10 l) : Nat) : Int)) := by
  unfold parseInt
  generalize trimStart string.data = s
  have hs : (match s with
      | '+' :: rest => rest
      | '-' :: rest => rest
      | _ => s) = dropSign s := by
    unfold dropSign
    split <;> rfl
  simp only [hs]

theorem dec_digit_facts : ∀ c ∈ decDigitChars,
    isStrWhiteSpaceChar c = false ∧ c ≠ '-' ∧ c ≠ '+' ∧ c.toLower ≠ 'x' := by
  decide

theorem startsWith0x_dec (keyInput : String) (h : ∀ c ∈ keyInput.data, c ∈ decDigitChars) :
    startsWith0x keyInput = false := by
  cases hb : startsWith0x keyInput with
  | false => rfl
  | true =>
    obtain ⟨rest, hr | hr⟩ := (startsWith0x_iff keyInput).mp hb
    · exact absurd (h 'x' (by rw [hr]; simp)) (by decide)
    · exact absurd (h 'X' (by rw [hr]; simp)) (by decide)

/-- The key read from a text made of the prefix `0x` or `0X` and hexadecimal
digits, or of decimal digits only: the double nearest to the value of the digits. -/
theorem parseKey_digits (keyInput : String) (base : Nat) (ds : List Char) (hne : ds ≠ [])
    (hform : (base = 16 ∧ (∀ c ∈ ds, c ∈ hexDigitChars) ∧
        (keyInput.data = '0' :: 'x' :: ds ∨ keyInput.data = '0' :: 'X' :: ds)) ∨
      (base = 10 ∧ (∀ c ∈ ds, c ∈ decDigitChars) ∧ keyInput.data = ds)) :
    parseKey keyInput = toDouble (textValue base ds) := by
  unfold parseKey
  rcases hform with ⟨rfl, hall, hdata⟩ | ⟨rfl, hall, hdata⟩
  · have h0x : startsWith0x keyInput = true := (startsWith0x_iff keyInput).mpr ⟨ds, hdata⟩
    rw [h0x, if_pos rfl, parseInt_hex keyInput ds hdata,
      takeDigits_of_all 16 ds (fun c hc => digitValue_hex_of_mem c (hall c hc))]
    cases ds with
    | nil => exact absurd rfl hne
    | cons c cs =>
      rw [← digitsToNat_map]
      rfl
  · have h0x : startsWith0x keyInput = false := startsWith0x_dec keyInput (hdata ▸ hall)
    rw [h0x, if_neg (by decide), parseInt_dec, hdata]
    cases ds with
    | nil => exact absurd rfl hne
    | cons c cs =>
      obtain ⟨hws, hm, hp, _⟩ := dec_digit_facts c (hall c (List.mem_cons_self _ _))
      rw [trimStart_cons c cs hws]
      have hds : dropSign (c :: cs) = c :: cs := by
        unfold dropSign
        split
        · rename_i heq; exact absurd (List.cons.inj heq).1 hp
        · rename_i heq; exact absurd (List.cons.inj heq).1 hm
        · rfl
      have hsign : (match c :: cs with
          | '-' :: _ => (-1 : Int)
          | _ => 1) = 1 := by
        split
        · rename_i heq; exact absurd (List.cons.inj heq).1 hm
        · rfl
      rw [hds, hsign,
        takeDigits_of_all 10 (c :: cs) (fun d hd => digitValue_dec_of_mem d (hall d hd)),
        ← digitsToNat_map]
      simp


theorem mem_hexDigitChars_of_digitValue {c : Char} {d : Nat} (h : digitValue 16 c = some d) :
    c ∈ hexDigitChars := by
  unfold digitValue at h
  simp only at h
  have hc := char_eq_of_toNat (rfl : c.toNat = c.toNat)
  generalize c.toNat = n at h hc
  subst hc
  split at h
  · rename_i v hv
    split at hv
    · rename_i hn
      obtain ⟨h1, h2⟩ := hn
      interval_cases n <;> decide
    · split at hv
      · rename_i hn
        obtain ⟨h1, h2⟩ := hn
        cases hv
        split at h
        · rename_i hlt
          have h3 : n ≤ 102 := by omega
          interval_cases n <;> decide
        · cases h
      · split at hv
        · rename_i hn
          obtain ⟨h1, h2⟩ := hn
          cases hv
          split at h
          · rename_i hlt
            have h3 : n ≤ 70 := by omega
            interval_cases n <;> decide
          · cases h
        · cases hv
  · cases h

theorem mem_decDigitChars_of_digitValue {c : Char} {d : Nat} (h : digitValue 10 c = some d) :
    c ∈ decDigitChars := by
  unfold digitValue at h
  simp only at h
  have hc := char_eq_of_toNat (rfl : c.toNat = c.toNat)
  generalize c.toNat = n at h hc
  subst hc
  split at h
  · rename_i v hv
    split at hv
    · rename_i hn
      obtain ⟨h1, h2⟩ := hn
      interval_cases n <;> decide
    · split at hv
      · rename_i hn
        obtain ⟨h1, h2⟩ := hn
        cases hv
        split at h
        · rename_i hlt
          omega
        · cases h
      · split at hv
        · rename_i hn
          obtain ⟨h1, h2⟩ := hn
          cases hv
          split at h
          · rename_i hlt
            omega
          · cases h
        · cases hv
  · cases h

theorem takeDigits_eq_nil (radix : Nat) (allowed : List Char)
    (hall : ∀ c d, digitValue radix c = some d → c ∈ allowed) (s : List Char)
    (h : startsWithOneOf allowed s = false) : takeDigits radix s = [] := by
  cases s with
  | nil => rfl
  | cons c cs =>
    unfold takeDigits
    cases hd : digitValue radix c with
    | none => rfl
    | some d =>
      have := hall c d hd
      simp [startsWithOneOf, this] at h

/-- A key text whose numeric part does not start with a digit is read as `0`. -/
theorem parseKey_fallback (keyInput : String)
    (h : numericPartStartsWithDigit keyInput.data = false) : parseKey keyInput = 0 := by
  unfold parseKey
  unfold numericPartStartsWithDigit at h
  split at h
  · rename_i rest heq
    have h0x : startsWith0x keyInput = true := (startsWith0x_iff keyInput).mpr ⟨rest, Or.inl heq⟩
    rw [h0x, if_pos rfl, parseInt_hex keyInput rest (Or.inl heq),
      takeDigits_eq_nil 16 hexDigitChars (fun c d => mem_hexDigitChars_of_digitValue) rest h]
    rfl
  · rename_i rest heq
    have h0x : startsWith0x keyInput = true := (startsWith0x_iff keyInput).mpr ⟨rest, Or.inr heq⟩
    rw [h0x, if_pos rfl, parseInt_hex keyInput rest (Or.inr heq),
      takeDigits_eq_nil 16 hexDigitChars (fun c d => mem_hexDigitChars_of_digitValue) rest h]
    rfl
  · rename_i hx hX
    have h0x : startsWith0x keyInput = false := by
      cases hb : startsWith0x keyInput with
      | false => rfl
      | true =>
        obtain ⟨rest, hr | hr⟩ := (startsWith0x_iff keyInput).mp hb
        · exact absurd hr (hx rest)
        · exact absurd hr (hX rest)
    rw [h0x, if_neg (by decide), parseInt_dec,
      takeDigits_eq_nil 10 decDigitChars (fun c d => mem_decDigitChars_of_digitValue) _ h]
    rfl

/-- C13 as stated fails: the key text `0x20000000000001` is the prefix `0x` and
fourteen hexadecimal digits of value `2 ^ 53 + 1 = 9007199254740993`, and
`handleInitialize` sets `keyToSearch` to `9007199254740992`, the nearest
double. -/
theorem parse_exact_counterexample :
    (handleKeyInputChange "0x20000000000001").keyInput.data =
      '0' :: 'x' :: "20000000000001".data ∧
    (∀ c ∈ "20000000000001".data, c ∈ hexDigitChars) ∧
    textValue 16 "20000000000001".data = 9007199254740993 ∧
    (handleInitialize (handleKeyInputChange "0x20000000000001")).keyToSearch =
      9007199254740992 :=
  ⟨by decide, by decide, by decide, by decide⟩

/-- C13, amended: for a key text made of the prefix `0x` or `0X` and one or more
hexadecimal digits of either case (`base = 16`), or of one or more decimal
digits (`base = 10`), whose value in that base is below `2 ^ 53`,
`handleInitialize` sets `keyToSearch` to that value. -/
theorem parse_key_exact (s0 : State) (base : Nat) (ds : List Char) (hne : ds ≠ [])
    (hform : (base = 16 ∧ (∀ c ∈ ds, c ∈ hexDigitChars) ∧
        (s0.keyInput.data = '0' :: 'x' :: ds ∨ s0.keyInput.data = '0' :: 'X' :: ds)) ∨
      (base = 10 ∧ (∀ c ∈ ds, c ∈ decDigitChars) ∧ s0.keyInput.data = ds))
    (hval : textValue base ds < 2 ^ 53) :
    (handleInitialize s0).keyToSearch = (textValue base ds : Int) := by
  show parseKey s0.keyInput = (textValue base ds : Int)
  rw [parseKey_digits s0.keyInput base ds hne hform, toDouble_of_lt _ hval]

/-- Witness of C13 amended: the key text `0X1f` is read as 31 and the key text
`137` as 137. -/
theorem parse_key_exact_witness :
    ("1f".data ≠ [] ∧ (∀ c ∈ "1f".data, c ∈ hexDigitChars) ∧
      (handleKeyInputChange "0X1f").keyInput.data = '0' :: 'X' :: "1f".data ∧
      textValue 16 "1f".data = 31 ∧
      (handleInitialize (handleKeyInputChange "0X1f")).keyToSearch =
        (textValue 16 "1f".data : Int)) ∧
    ("137".data ≠ [] ∧ (∀ c ∈ "137".data, c ∈ decDigitChars) ∧
      (handleKeyInputChange "137").keyInput.data = "137".data ∧
      textValue 10 "137".data = 137 ∧
      (handleInitialize (handleKeyInputChange "137")).keyToSearch =
        (textValue 10 "137".data : Int)) :=
  ⟨⟨by decide, by decide, by decide, by decide,
      parse_key_exact (handleKeyInputChange "0X1f") 16 "1f".data (by decide)
        (Or.inl ⟨rfl, by decide, Or.inr (by decide)⟩) (by decide)⟩,
    ⟨by decide, by decide, by decide, by decide,
      parse_key_exact (handleKeyInputChange "137") 10 "137".data (by decide)
        (Or.inr ⟨rfl, by decide, by decide⟩) (by decide)⟩⟩

theorem takeDigits_append (radix : Nat) (allowed : List Char)
    (hin : ∀ c ∈ allowed, digitValue radix c = some (charValue c))
    (hout : ∀ c d, digitValue radix c = some d → c ∈ allowed)
    (ds rest : List Char) (hds : ∀ c ∈ ds, c ∈ allowed)
    (hrest : startsWithOneOf allowed rest = false) :
    takeDigits radix (ds ++ rest) = ds.map charValue := by
  induction ds with
  | nil => exact takeDigits_eq_nil radix allowed hout rest hrest
  | cons c cs ih =>
    have hc := hin c (hds c (List.mem_cons_self _ _))
    have hcs := ih (fun d hd => hds d (List.mem_cons_of_mem _ hd))
    rw [List.cons_append, List.map_cons, ← hcs]
    simp only [takeDigits, hc]

theorem textValue_nil (base : Nat) : textValue base [] = 0 := by
  simp [textValue]

/-- The key read from a text with the prefix `0x` or `0X`: the value of the
hexadecimal digits that follow the prefix, up to the first other character. -/
theorem parseKey_leading_hex (keyInput : String) (ds rest : List Char)
    (hds : ∀ c ∈ ds, c ∈ hexDigitChars) (hrest : startsWithOneOf hexDigitChars rest = false)
    (hdata : keyInput.data = '0' :: 'x' :: (ds ++ rest) ∨
      keyInput.data = '0' :: 'X' :: (ds ++ rest)) :
    parseKey keyInput = (toDouble (textValue 16 ds) : Int) := by
  unfold parseKey
  have h0x : startsWith0x keyInput = true := (startsWith0x_iff keyInput).mpr ⟨ds ++ rest, hdata⟩
  rw [h0x, if_pos rfl, parseInt_hex keyInput (ds ++ rest) hdata,
    takeDigits_append 16 hexDigitChars digitValue_hex_of_mem
      (fun c d => mem_hexDigitChars_of_digitValue) ds rest hds hrest]
  cases ds with
  | nil => simp [textValue_nil, toDouble]
  | cons c cs =>
    rw [← digitsToNat_map]
    rfl

/-- The key read from a text without the prefix: the value of the decimal digits
that follow leading white space and one optional sign, up to the first other
character, negated after a minus sign. -/
theorem parseKey_leading_dec (keyInput : String) (ds rest : List Char)
    (hds : ∀ c ∈ ds, c ∈ decDigitChars) (hrest : startsWithOneOf decDigitChars rest = false)
    (hno : ∀ r, keyInput.data ≠ '0' :: 'x' :: r ∧ keyInput.data ≠ '0' :: 'X' :: r)
    (hbody : dropSign (trimStart keyInput.data) = ds ++ rest) :
    parseKey keyInput = signOf (trimStart keyInput.data) * (toDouble (textValue 10 ds) : Int) := by
  unfold parseKey
  have h0x : startsWith0x keyInput = false := by
    cases hb : startsWith0x keyInput with
    | false => rfl
    | true =>
      obtain ⟨r, hr | hr⟩ := (startsWith0x_iff keyInput).mp hb
      · exact absurd hr (hno r).1
      · exact absurd hr (hno r).2
  have hsign : (match trimStart keyInput.data with
      | '-' :: _ => (-1 : Int)
      | _ => 1) = signOf (trimStart keyInput.data) := by
    unfold signOf
    split <;> rfl
  rw [h0x, if_neg (by decide), parseInt_dec, hbody, hsign,
    takeDigits_append 10 decDigitChars digitValue_dec_of_mem
      (fun c d => mem_decDigitChars_of_digitValue) ds rest hds hrest]
  cases ds with
  | nil => simp [textValue_nil, toDouble]
  | cons c cs =>
    rw [← digitsToNat_map]
    rfl

/-- C14 as stated fails: the key text `12abc` has no prefix and is not a decimal
number, yet `keyToSearch` is 12; the key text `0x1G` has the prefix and `1G` is
not a hexadecimal number, yet `keyToSearch` is 1.  `parseInt` reads the digits
up to the first character that is not one. -/
theorem fallback_counterexample :
    (startsWith0x (handleKeyInputChange "12abc").keyInput = false ∧
      ¬ (∀ c ∈ (handleKeyInputChange "12abc").keyInput.data, c ∈ decDigitChars) ∧
      (handleInitialize (handleKeyInputChange "12abc")).keyToSearch = 12) ∧
    ((handleKeyInputChange "0x1G").keyInput.data = '0' :: 'x' :: "1G".data ∧
      ¬ (∀ c ∈ "1G".data, c ∈ hexDigitChars) ∧
      (handleInitialize (handleKeyInputChange "0x1G")).keyToSearch = 1) :=
  ⟨⟨by decide, by decide, by decide⟩, ⟨by decide, by decide, by decide⟩⟩

/-- C14, amended: for a key text whose numeric part does not start with a digit
of the selected base (after the prefix `0x` or `0X`: the rest of the text does
not start with a hexadecimal digit; without that prefix: the text after leading
white space and one optional sign does not start with a decimal digit),
`handleInitialize` returns a state, initialized and unfinished, with
`keyToSearch = 0`.  A numeric part that starts with digits and goes on with
other characters is read up to the first character that is not a digit: after
the prefix, `keyToSearch` is the base-16 value of the leading hexadecimal
digits `ds`; without the prefix, it is the base-10 value of the leading decimal
digits `ds`, negated after a minus sign (the value as a double, which is the
value itself below `2 ^ 53`). -/
theorem parse_key_fallback (s0 : State) :
    (numericPartStartsWithDigit s0.keyInput.data = false →
      (handleInitialize s0).keyToSearch = 0 ∧ (handleInitialize s0).registers.E = 0 ∧
      (handleInitialize s0).isInitialized = true ∧
      (handleInitialize s0).isFinished = false) ∧
    (∀ ds rest : List Char, (∀ c ∈ ds, c ∈ hexDigitChars) →
      startsWithOneOf hexDigitChars rest = false →
      (s0.keyInput.data = '0' :: 'x' :: (ds ++ rest) ∨
        s0.keyInput.data = '0' :: 'X' :: (ds ++ rest)) →
      (handleInitialize s0).keyToSearch = (toDouble (textValue 16 ds) : Int) ∧
      (textValue 16 ds < 2 ^ 53 →
        (handleInitialize s0).keyToSearch = (textValue 16 ds : Int))) ∧
    (∀ ds rest : List Char, (∀ c ∈ ds, c ∈ decDigitChars) →
      startsWithOneOf decDigitChars rest = false →
      (∀ r, s0.keyInput.data ≠ '0' :: 'x' :: r ∧ s0.keyInput.data ≠ '0' :: 'X' :: r) →
      dropSign (trimStart s0.keyInput.data) = ds ++ rest →
      (handleInitialize s0).keyToSearch =
        signOf (trimStart s0.keyInput.data) * (toDouble (textValue 10 ds) : Int) ∧
      (textValue 10 ds < 2 ^ 53 →
        (handleInitialize s0).keyToSearch =
          signOf (trimStart s0.keyInput.data) * (textValue 10 ds : Int))) := by
  refine ⟨fun h => ⟨parseKey_fallback s0.keyInput h, parseKey_fallback s0.keyInput h, rfl, rfl⟩,
    fun ds rest hds hrest hdata => ?_, fun ds rest hds hrest hno hbody => ?_⟩
  · have hkey : (handleInitialize s0).keyToSearch = (toDouble (textValue 16 ds) : Int) :=
      parseKey_leading_hex s0.keyInput ds rest hds hrest hdata
    refine ⟨hkey, fun hlt => ?_⟩
    rw [hkey, toDouble_of_lt _ hlt]
  · have hkey : (handleInitialize s0).keyToSearch =
        signOf (trimStart s0.keyInput.data) * (toDouble (textValue 10 ds) : Int) :=
      parseKey_leading_dec s0.keyInput ds rest hds hrest hno hbody
    refine ⟨hkey, fun hlt => ?_⟩
    rw [hkey, toDouble_of_lt _ hlt]

/-- Witness of C14 amended: the key text `not-a-number` is read as 0, `12.5` as
12, `0x1G` as 1 and `  -7up` as -7. -/
theorem parse_key_fallback_witness :
    (numericPartStartsWithDigit (handleKeyInputChange "not-a-number").keyInput.data = false ∧
      (handleInitialize (handleKeyInputChange "not-a-number")).keyToSearch = 0 ∧
      (handleInitialize (handleKeyInputChange "not-a-number")).registers.E = 0 ∧
      (handleInitialize (handleKeyInputChange "not-a-number")).isInitialized = true ∧
      (handleInitialize (handleKeyInputChange "not-a-number")).isFinished = false) ∧
    (dropSign (trimStart (handleKeyInputChange "12.5").keyInput.data) =
        "12".data ++ ".5".data ∧
      signOf (trimStart (handleKeyInputChange "12.5").keyInput.data) = 1 ∧
      textValue 10 "12".data = 12 ∧
      (handleInitialize (handleKeyInputChange "12.5")).keyToSearch =
        signOf (trimStart (handleKeyInputChange "12.5").keyInput.data) *
          (textValue 10 "12".data : Int)) ∧
    ((handleKeyInputChange "0x1G").keyInput.data = '0' :: 'x' :: ("1".data ++ "G".data) ∧
      textValue 16 "1".data = 1 ∧
      (handleInitialize (handleKeyInputChange "0x1G")).keyToSearch =
        (textValue 16 "1".data : Int)) ∧
    (dropSign (trimStart (handleKeyInputChange "  -7up").keyInput.data) =
        "7".data ++ "up".data ∧
      signOf (trimStart (handleKeyInputChange "  -7up").keyInput.data) = -1 ∧
      textValue 10 "7".data = 7 ∧
      (handleInitialize (handleKeyInputChange "  -7up")).keyToSearch =
        signOf (trimStart (handleKeyInputChange "  -7up").keyInput.data) *
          (textValue 10 "7".data : Int)) :=
  ⟨⟨by decide, (parse_key_fallback (handleKeyInputChange "not-a-number")).1 (by decide)⟩,
    ⟨by decide, by decide, by decide,
      ((parse_key_fallback (handleKeyInputChange "12.5")).2.2 "12".data ".5".data
        (by decide) (by decide)
        (fun _ => ⟨fun h => absurd (List.cons.inj h).1 (by decide),
          fun h => absurd (List.cons.inj h).1 (by decide)⟩)
        (by decide)).2 (by decide)⟩,
    ⟨by decide, by decide,
      ((parse_key_fallback (handleKeyInputChange "0x1G")).2.1 "1".data "G".data
        (by decide) (by decide) (Or.inl (by decide))).2 (by decide)⟩,
    ⟨by decide, by decide, by decide,
      ((parse_key_fallback (handleKeyInputChange "  -7up")).2.2 "7".data "up".data
        (by decide) (by decide)
        (fun _ => ⟨fun h => absurd (List.cons.inj h).1 (by decide),
          fun h => absurd (List.cons.inj h).1 (by decide)⟩)
        (by decide)).2 (by decide)⟩⟩

/-! ## Writing a number in hexadecimal -/

theorem charValue_upper_digitChar : ∀ k, k < 16 →
    charValue (Nat.digitChar k).toUpper = k ∧ (Nat.digitChar k).toUpper ∈ upperHexChars := by
  decide

theorem textValue_cons (base : Nat) (c : Char) (l : List Char) :
    textValue base (c :: l) = charValue c * base ^ l.length + textValue base l := by
  unfold textValue
  rw [List.reverse_cons, List.map_append, Nat.ofDigits_append, List.map_singleton,
    Nat.ofDigits_singleton, List.length_map, List.length_reverse]
  ring

theorem textValue_toDigitsCore (fuel : Nat) :
    ∀ (n : Nat) (acc : List Char), n < fuel →
      textValue 16 ((Nat.toDigitsCore 16 fuel n acc).map Char.toUpper) =
        n * 16 ^ acc.length + textValue 16 (acc.map Char.toUpper) := by
  induction fuel with
  | zero => intro n acc h; omega
  | succ fuel ih =>
    intro n acc h
    have hk := (charValue_upper_digitChar (n % 16) (Nat.mod_lt _ (by norm_num))).1
    unfold Nat.toDigitsCore
    simp only
    split
    · rename_i h0
      rw [List.map_cons, textValue_cons, hk, List.length_map]
      have : n % 16 = n := by omega
      rw [this]
    · rename_i h0
      rw [ih (n / 16) _ (by omega), List.map_cons, textValue_cons, hk, List.length_map,
        List.length_cons, pow_succ]
      rw [show n * 16 ^ acc.length = (16 * (n / 16) + n % 16) * 16 ^ acc.length from by
        rw [Nat.div_add_mod]]
      ring

theorem mem_upper_toDigitsCore (fuel : Nat) :
    ∀ (n : Nat) (acc : List Char), (∀ c ∈ acc.map Char.toUpper, c ∈ upperHexChars) →
      ∀ c ∈ (Nat.toDigitsCore 16 fuel n acc).map Char.toUpper, c ∈ upperHexChars := by
  induction fuel with
  | zero => intro n acc h; exact h
  | succ fuel ih =>
    intro n acc h
    have hk := (charValue_upper_digitChar (n % 16) (Nat.mod_lt _ (by norm_num))).2
    have hacc : ∀ c ∈ (Nat.digitChar (n % 16) :: acc).map Char.toUpper, c ∈ upperHexChars := by
      intro c hc
      rw [List.map_cons, List.mem_cons] at hc
      rcases hc with rfl | hc
      · exact hk
      · exact h c hc
    unfold Nat.toDigitsCore
    simp only
    split
    · exact hacc
    · exact ih _ _ hacc

theorem textValue_replicate_zero (k : Nat) (l : List Char) :
    textValue 16 (List.replicate k '0' ++ l) = textValue 16 l := by
  induction k with
  | zero => rfl
  | succ k ih =>
    rw [List.replicate_succ, List.cons_append, textValue_cons, ih]
    have : charValue '0' = 0 := by decide
    rw [this]
    simp

/-- The digits `hex` writes for a natural number below `16 ^ w`, `w ≥ 1`. -/
theorem hex_digits (w m : Nat) (hw : 1 ≤ w) (hm : m < 16 ^ w) :
    (padStart ((Nat.toDigits 16 m).map Char.toUpper) w '0').length = w ∧
    (∀ c ∈ padStart ((Nat.toDigits 16 m).map Char.toUpper) w '0', c ∈ upperHexChars) ∧
    textValue 16 (padStart ((Nat.toDigits 16 m).map Char.toUpper) w '0') = m := by
  have hlen : ((Nat.toDigits 16 m).map Char.toUpper).length ≤ w := by
    rw [List.length_map]
    exact Nat.toDigitsCore_length 16 (by norm_num) (m + 1) m w hm hw
  have hval : textValue 16 ((Nat.toDigits 16 m).map Char.toUpper) = m := by
    unfold Nat.toDigits
    rw [textValue_toDigitsCore (m + 1) m [] (Nat.lt_succ_self m)]
    simp [textValue]
  have hmem : ∀ c ∈ (Nat.toDigits 16 m).map Char.toUpper, c ∈ upperHexChars :=
    mem_upper_toDigitsCore (m + 1) m [] (fun c hc => by simp at hc)
  unfold padStart
  refine ⟨?_, ?_, ?_⟩
  · rw [List.length_append, List.length_replicate]
    omega
  · intro c hc
    rw [List.mem_append] at hc
    rcases hc with hc | hc
    · rw [List.eq_of_mem_replicate hc]
      decide
    · exact hmem c hc
  · rw [textValue_replicate_zero, hval]

/-- C19 as stated fails at width 0: `0 ≤ 0 < 16 ^ 0`, and `hex 0 0` is `0x0`,
with one digit after `0x`, not zero digits (`padStart` never shortens). -/
theorem hex_width_counterexample :
    (0 : Int) ≤ 0 ∧ (0 : Int) < 16 ^ 0 ∧ hex 0 0 = "0x0" ∧
      ((hex 0 0).data.drop 2).length = 1 :=
  ⟨by decide, by decide, by decide, by decide⟩

/-- C19, amended: for every width `w ≥ 1` and every integer `n` with
`0 ≤ n < 16 ^ w`, `hex n w` is `0x` followed by exactly `w` characters drawn
from `0-9` and `A-F` whose base-16 value is `n`. -/
theorem hex_format (w : Nat) (n : Int) (hw : 1 ≤ w) (h0 : 0 ≤ n) (hn : n < 16 ^ w) :
    ∃ ds : List Char, hex n w = "0x" ++ String.mk ds ∧ ds.length = w ∧
      (∀ c ∈ ds, c ∈ upperHexChars) ∧ (textValue 16 ds : Int) = n := by
  have hm : n.toNat < 16 ^ w := by
    have h1 : ((n.toNat : Nat) : Int) < ((16 ^ w : Nat) : Int) := by
      rw [Int.toNat_of_nonneg h0]
      exact_mod_cast hn
    exact_mod_cast h1
  obtain ⟨hlen, hmem, hval⟩ := hex_digits w n.toNat hw hm
  refine ⟨padStart ((Nat.toDigits 16 n.toNat).map Char.toUpper) w '0', ?_, hlen, hmem, ?_⟩
  · unfold hex toStringRadix
    rw [if_neg (not_lt.mpr h0)]
  · rw [hval, Int.toNat_of_nonneg h0]

/-- Witness of C19 amended: `hex 0x66 2` is `0x66` and `hex 0x3000 4` is `0x3000`. -/
theorem hex_format_witness :
    (1 ≤ 2 ∧ (0 : Int) ≤ 0x66 ∧ (0x66 : Int) < 16 ^ 2 ∧ hex 0x66 = "0x66" ∧
      ∃ ds : List Char, hex 0x66 2 = "0x" ++ String.mk ds ∧ ds.length = 2 ∧
        (∀ c ∈ ds, c ∈ upperHexChars) ∧ (textValue 16 ds : Int) = 0x66) ∧
    (1 ≤ 4 ∧ (0 : Int) ≤ 0x3000 ∧ (0x3000 : Int) < 16 ^ 4 ∧ hex 0x3000 4 = "0x3000" ∧
      ∃ ds : List Char, hex 0x3000 4 = "0x" ++ String.mk ds ∧ ds.length = 4 ∧
        (∀ c ∈ ds, c ∈ upperHexChars) ∧ (textValue 16 ds : Int) = 0x3000) :=
  ⟨⟨by decide, by decide, by decide, by decide,
      hex_format 2 0x66 (by decide) (by decide) (by decide)⟩,
    ⟨by decide, by decide, by decide, by decide,
      hex_format 4 0x3000 (by decide) (by decide) (by decide)⟩⟩

/-- C20 as stated fails on the low line: the fourth entry of the log of the
initialized state is the fixed text `MVI B, 00H        ; B (low) = 0`, which
does not contain `hex 0`, that is `0x00`. -/
theorem init_log_counterexample :
    (handleInitialize getInitialState).log.get? 3 = some "MVI B, 00H        ; B (low) = 0" ∧
    hex 0 = "0x00" ∧
    ¬ Contains (hex 0) "MVI B, 00H        ; B (low) = 0" :=
  ⟨by decide, by decide, by decide⟩

/-- C20, amended: whatever the previous state (its log included), the log of
the state returned by `handleInitialize` has exactly five entries: the fixed
header, then the pointer line, which contains `hex ARRAY_ADDR 4`, the key
line, which contains `hex key`, the low line, which is the fixed text
`MVI B, 00H        ; B (low) = 0`, and the high line, which contains
`hex high`; each line starts with the name of its operation. -/
theorem init_log (s0 : State) :
    ∃ l1 l2 l4 : String,
      (handleInitialize s0).log =
        ["--- Simulation Initialized ---", l1, l2, "MVI B, 00H        ; B (low) = 0", l4] ∧
      (handleInitialize s0).log.length = 5 ∧
      Contains (hex ARRAY_ADDR 4) l1 ∧
      Contains (hex (handleInitialize s0).keyToSearch) l2 ∧
      Contains (hex ((s0.array.length : Int) - 1)) l4 ∧
      (handleInitialize s0).high = some ((s0.array.length : Int) - 1) ∧
      "LXI H, ".data <+: l1.data ∧ "MVI E, ".data <+: l2.data ∧ "MVI C, ".data <+: l4.data := by
  refine ⟨_, _, _, rfl, rfl, ?_, ?_, ?_, rfl, ?_, ?_, ?_⟩
  · exact ⟨"LXI H, ".data, ("   ; HL (base addr) = " ++ hex ARRAY_ADDR 4).data, by
      simp [String.data_append]⟩
  · exact ⟨"MVI E, ".data, ("      ; E (key) = " ++ hex (parseKey s0.keyInput)).data, by
      simp [String.data_append]; rfl⟩
  · exact ⟨"MVI C, ".data,
      ("H        ; C (high) = " ++ numToString ((s0.array.length : Int) - 1)).data, by
      simp [String.data_append]⟩
  · exact ⟨_, by simp [String.data_append]; rfl⟩
  · exact ⟨_, by simp [String.data_append]; rfl⟩
  · exact ⟨_, by simp [String.data_append]; rfl⟩

end BinarySearch8085
